import Mathlib

/-!
# Verification of the semantic-analysis core of a GraphQL engine

Shallow embedding of the repository's field-collection algorithm
(`src/execution/collectFields.ts`), fragment-argument substitution
(`src/utilities/substituteFragmentArguments.ts`) and the
overlapping-fields merge validator
(`src/validation/rules/OverlappingFieldsCanBeMergedRule.ts`),
together with proofs about the claims of the specification.

Conventions of the embedding:
* JavaScript objects used as string-keyed maps become association lists.
* The mutually recursive traversals are written with an explicit fuel
  parameter; `CollectError.outOfFuel` marks fuel exhaustion, and
  termination claims are stated as the existence of sufficient fuel.
* External collaborators that the repository's spec describes only at
  the interface boundary (directive value extraction, value
  canonicalization, schema lookup) are modelled from the spec's words;
  each such definition says so in its doc comment.
-/

namespace GraphQL

/-- AST value expressions (`ValueNode`). -/
inductive Value where
  | variableV (name : String)
  | intV (n : Int)
  | strV (s : String)
  | boolV (b : Bool)
  | nullV
  | enumV (name : String)
  | listV (values : List Value)
  | objV (fields : List (String × Value))

/-- A named argument (`ArgumentNode`): name / value-expression pair. -/
structure Argument where
  name : String
  value : Value

/-- A directive occurrence (`DirectiveNode`): a name plus arguments. -/
structure Directive where
  name : String
  arguments : List Argument

/-- Runtime variable values, as looked up from a variable-value
environment.  `runset` is the explicit "unset" outcome used for a
fragment argument that is neither supplied nor defaulted (the spec's
"explicit tagged value, not the absence of a key"). -/
inductive RVal where
  | rbool (b : Bool)
  | rint (n : Int)
  | rstr (s : String)
  | rnull
  | runset
  | rlist (values : List RVal)
  | robj (fields : List (String × RVal))

/-- A variable-value environment: string-keyed map of runtime values. -/
abbrev Env := List (String × RVal)

/-- Key lookup in an association list (JS object property access). -/
def lookupEnv (e : Env) (k : String) : Option RVal :=
  (e.find? (fun p => p.1 == k)).map (fun p => p.2)

/-- JS object spread `{ ...base, ...extra }`: keys of `extra` win.
With first-match lookup, prepending `extra` gives it precedence. -/
def mergeEnv (base extra : Env) : Env := extra ++ base

/-- `{ ...variableValues, ...localVariableValues }` where the local
scope may be `undefined`. -/
def mergeEnvOpt (base : Env) (extra : Option Env) : Env :=
  match extra with
  | none => base
  | some e => mergeEnv base e

mutual
/-- Modelled from the spec: §6 "Directive value extraction" evaluates a
value expression against a variable-value environment; a variable that
is absent from the environment coerces to the undefined/unset outcome. -/
def evalValue (env : Env) : Value → RVal
  | .variableV n =>
      match lookupEnv env n with
      | some v => v
      | none => .runset
  | .intV n => .rint n
  | .strV s => .rstr s
  | .boolV b => .rbool b
  | .nullV => .rnull
  | .enumV s => .rstr s
  | .listV vs => .rlist (evalValueList env vs)
  | .objV fs => .robj (evalValuePairs env fs)

/-- Evaluates each element of a list value. -/
def evalValueList (env : Env) : List Value → List RVal
  | [] => []
  | v :: vs => evalValue env v :: evalValueList env vs

/-- Evaluates each field of an object value. -/
def evalValuePairs (env : Env) : List (String × Value) → List (String × RVal)
  | [] => []
  | (k, v) :: fs => (k, evalValue env v) :: evalValuePairs env fs
end

/-- Modelled from the spec: §6 "Directive value extraction": given a
directive name, a node's directives, and a variable-value environment,
return the coerced argument object, or `none` when the directive is
absent from the node. -/
def getDirectiveValues (dirName : String) (directives : List Directive)
    (env : Env) : Option (List (String × RVal)) :=
  (directives.find? (fun d => d.name == dirName)).map
    (fun d => d.arguments.map (fun a => (a.name, evalValue env a.value)))

/-- Property access on a coerced directive-argument object. -/
def lookupArg (args : List (String × RVal)) (k : String) : Option RVal :=
  (args.find? (fun p => p.1 == k)).map (fun p => p.2)

/-- The kinds of named schema types the analysis distinguishes. -/
inductive TypeKind where
  | objectK
  | interfaceK
  | unionK
  | scalarK
  | enumK
deriving DecidableEq

/-- A named schema type. -/
structure NamedType where
  name : String
  kind : TypeKind
deriving DecidableEq

/-- A declared output type: a named type possibly wrapped in list and
non-null wrappers (`GraphQLOutputType`). -/
inductive OutType where
  | named (t : NamedType)
  | listOf (t : OutType)
  | nonNull (t : OutType)
deriving DecidableEq

/-- Modelled from the spec: §6 "Schema lookup".  Resolves type names,
answers the abstract-subtype test, and provides field definitions of
object/interface types by name. -/
structure GSchema where
  typeMap : List (String × NamedType)
  subTypePairs : List (String × String)
  fieldTypes : List ((String × String) × OutType)

/-- `typeFromAST`: resolve a type-condition name against the schema. -/
def typeFromAST (schema : GSchema) (n : String) : Option NamedType :=
  (schema.typeMap.find? (fun p => p.1 == n)).map (fun p => p.2)

/-- `isAbstractType`: interface or union. -/
def isAbstractType : Option NamedType → Bool
  | some t => t.kind == .interfaceK || t.kind == .unionK
  | none => false

/-- `schema.isSubType(abstractType, maybeSubType)`. -/
def GSchema.isSubType (schema : GSchema) (abstractType concrete : String) : Bool :=
  schema.subTypePairs.contains (abstractType, concrete)

/-- `parentType.getFields()[fieldName].type`, defined for object and
interface types. -/
def GSchema.fieldType (schema : GSchema) (typeName fieldName : String) : Option OutType :=
  (schema.fieldTypes.find? (fun p => p.1 == (typeName, fieldName))).map (fun p => p.2)

mutual
/-- A selection: field, inline fragment, or fragment spread
(`SelectionNode`). -/
inductive Selection where
  | field (node : FieldNode)
  | inlineFragment (typeCondition : Option String) (directives : List Directive)
      (selectionSet : List Selection)
  | fragmentSpread (name : String) (arguments : List Argument)
      (directives : List Directive)

/-- A field selection (`FieldNode`): optional alias, name, arguments,
directives, optional nested selection set. -/
inductive FieldNode where
  | mk (fieldAlias : Option String) (name : String) (arguments : List Argument)
      (directives : List Directive) (selectionSet : Option (List Selection))
end

/-- The field node's name. -/
def FieldNode.name : FieldNode → String
  | .mk _ n _ _ _ => n

/-- The field node's optional alias. -/
def FieldNode.fieldAlias : FieldNode → Option String
  | .mk a _ _ _ _ => a

/-- The field node's arguments. -/
def FieldNode.arguments : FieldNode → List Argument
  | .mk _ _ args _ _ => args

/-- The field node's directives. -/
def FieldNode.directives : FieldNode → List Directive
  | .mk _ _ _ dirs _ => dirs

/-- The field node's optional nested selection set. -/
def FieldNode.selectionSet : FieldNode → Option (List Selection)
  | .mk _ _ _ _ ss => ss

/-- A fragment argument signature (`VariableDefinitionNode`): name,
declared type, optional default value expression. -/
structure VarDef where
  name : String
  typeName : String
  defaultValue : Option Value

/-- A fragment definition (`FragmentDefinitionNode`): name, type
condition, optional declared variable signatures, selection set.
`variableDefinitions` is `none` when the node carries no
`variableDefinitions` property at all (the JS `undefined` case). -/
structure FragmentDef where
  name : String
  typeCondition : String
  variableDefinitions : Option (List VarDef)
  selectionSet : List Selection

/-- The fragment lookup table (`ObjMap<FragmentDefinitionNode>`). -/
abbrev Fragments := List (String × FragmentDef)

/-- `fragments[fragmentName]`. -/
def lookupFragment (fragments : Fragments) (n : String) : Option FragmentDef :=
  (fragments.find? (fun p => p.1 == n)).map (fun p => p.2)

/-- A `@defer` boundary: optional label plus enclosing defer usage. -/
inductive DeferUsage where
  | mk (label : Option String) (parentDeferUsage : Option DeferUsage)

/-- One collected field occurrence (`FieldDetails`): the field node,
the defer usage in effect, and the fragment-local variable scope in
effect when it was collected. -/
structure FieldDetails where
  node : FieldNode
  deferUsage : Option DeferUsage
  fragmentVariableValues : Option Env

/-- The ordered grouped field set (`AccumulatorMap<string, FieldDetails>`):
response key to group, insertion order preserved. -/
abbrev GroupedFieldSet := List (String × List FieldDetails)

namespace AccumulatorMap

/-- Modelled from the spec: the Grouped Field Set is an ordered mapping
from response key to field group; `add` appends to an existing group,
or appends a new key at the end (insertion order = first-encounter
order). -/
def add (m : GroupedFieldSet) (k : String) (v : FieldDetails) : GroupedFieldSet :=
  if m.any (fun p => p.1 == k) then
    m.map (fun p => if p.1 == k then (p.1, p.2 ++ [v]) else p)
  else
    m ++ [(k, [v])]

end AccumulatorMap

/-- The response keys of a grouped field set, in insertion order. -/
def groupedKeys (m : GroupedFieldSet) : List String := m.map (fun p => p.1)

/-- The operation kind (`OperationTypeNode`). -/
inductive OpType where
  | query
  | mutation
  | subscription
deriving DecidableEq

/-- Abnormal outcomes of the embedded traversals: the fatal internal
invariant violation thrown by `invariant(...)`, and fuel exhaustion of
the embedding. -/
inductive CollectError where
  | invariantViolation
  | outOfFuel
deriving DecidableEq

/-- `getFieldEntryKey`: the response key of a field (alias if present,
else field name). -/
def getFieldEntryKey (node : FieldNode) : String :=
  match node.fieldAlias with
  | some a => a
  | none => node.name

/-- The `@include` half of `shouldIncludeNode`. -/
def shouldIncludeNodeInclude (variableValues : Env) (directives : List Directive) : Bool :=
  match getDirectiveValues "include" directives variableValues with
  | some args =>
      match lookupArg args "if" with
      | some (.rbool false) => false
      | _ => true
  | none => true

/-- `shouldIncludeNode`: `@skip` has precedence over `@include`. -/
def shouldIncludeNode (variableValues : Env) (directives : List Directive) : Bool :=
  match getDirectiveValues "skip" directives variableValues with
  | some args =>
      match lookupArg args "if" with
      | some (.rbool true) => false
      | _ => shouldIncludeNodeInclude variableValues directives
  | none => shouldIncludeNodeInclude variableValues directives

/-- The source's `defer.if === false` test on a coerced argument. -/
def rvalEqFalse : Option RVal → Bool
  | some (.rbool false) => true
  | _ => false

/-- `getDeferUsage`: `@defer` arguments when the node defers; aborts
with the internal invariant violation when a live `@defer` is reached
on a subscription operation. -/
def getDeferUsage (operationType : OpType) (variableValues : Env)
    (directives : List Directive) (parentDeferUsage : Option DeferUsage) :
    Except CollectError (Option DeferUsage) :=
  match getDirectiveValues "defer" directives variableValues with
  | none => .ok none
  | some args =>
      if rvalEqFalse (lookupArg args "if") then .ok none
      else if operationType = .subscription then
        .error .invariantViolation
      else
        .ok (some (.mk
          (match lookupArg args "label" with
           | some (.rstr s) => some s
           | _ => none)
          parentDeferUsage))

/-- `doesFragmentConditionMatch`: no condition always matches; a named
condition matches the runtime type exactly, or via the schema's
subtype relation when the condition names an abstract type. -/
def doesFragmentConditionMatch (schema : GSchema) (typeCondition : Option String)
    (t : NamedType) : Bool :=
  match typeCondition with
  | none => true
  | some c =>
      match typeFromAST schema c with
      | some conditionalType =>
          if conditionalType = t then true
          else if isAbstractType (some conditionalType) then
            schema.isSubType conditionalType.name t.name
          else false
      | none => false

/-- Modelled from the spec: §4.1 fragment-local variable scope at
execution time (`getArgumentValuesFromSpread` of `execution/values.ts`,
which is outside the analyzed sources; only its call site is).  Every
declared variable is bound: to the spread-supplied argument value
(evaluated in the enclosing scope) when one exists, else to the
signature's default value, else to the explicit unset sentinel — never
to an outer-scope variable of the same name. -/
def getArgumentValuesFromSpread (spreadArgs : List Argument)
    (variableDefinitions : List VarDef) (variableValues : Env)
    (fragmentVarValues : Option Env) : Env :=
  variableDefinitions.map (fun vd =>
    match spreadArgs.find? (fun a => a.name == vd.name) with
    | some a =>
        (vd.name, evalValue (mergeEnvOpt variableValues fragmentVarValues) a.value)
    | none =>
        match vd.defaultValue with
        | some d =>
            (vd.name, evalValue (mergeEnvOpt variableValues fragmentVarValues) d)
        | none => (vd.name, RVal.runset))

/-- The fixed inputs of one field-collection pass
(`CollectFieldsContext` without its mutable members). -/
structure CollectCtx where
  schema : GSchema
  fragments : Fragments
  variableValues : Env
  operationType : OpType
  runtimeType : NamedType

/-- The mutable traversal state: the grouped-field accumulator, the
`newDeferUsages` output list, the visited-fragment-name set, and the
context's mutable `localVariableValues` member (which the source
mutates in place and never restores). -/
structure CollectSt where
  grouped : GroupedFieldSet
  newDeferUsages : List DeferUsage
  visitedFragmentNames : List String
  localVariableValues : Option Env

/-- `collectFieldsImpl`.  The `lv` parameter is the value of
`context.localVariableValues` destructured once at function entry; the
state's `localVariableValues` member is the live mutable field, which a
fragment spread overwrites before recursing (recursive calls destructure
the member again at their own entry).  Fuel is consumed at every step;
`outOfFuel` marks exhaustion of the embedding's budget only. -/
def collectFieldsImpl (ctx : CollectCtx) :
    Nat → Option Env → Option DeferUsage → List Selection → CollectSt →
    Except CollectError CollectSt
  | 0, _, _, _, _ => .error .outOfFuel
  | _ + 1, _, _, [], st => .ok st
  | fuel + 1, lv, deferU, sel :: rest, st =>
    match sel with
    | .field node =>
        if shouldIncludeNode (mergeEnvOpt ctx.variableValues lv) node.directives then
          collectFieldsImpl ctx fuel lv deferU rest
            { st with grouped :=
                AccumulatorMap.add st.grouped (getFieldEntryKey node) ⟨node, deferU, lv⟩ }
        else
          collectFieldsImpl ctx fuel lv deferU rest st
    | .inlineFragment typeCondition directives subSelections =>
        if shouldIncludeNode (mergeEnvOpt ctx.variableValues lv) directives
            && doesFragmentConditionMatch ctx.schema typeCondition ctx.runtimeType then
          match getDeferUsage ctx.operationType ctx.variableValues directives deferU with
          | .error e => .error e
          | .ok none => do
              let st' ← collectFieldsImpl ctx fuel st.localVariableValues deferU
                subSelections st
              collectFieldsImpl ctx fuel lv deferU rest st'
          | .ok (some d) => do
              let st' ← collectFieldsImpl ctx fuel st.localVariableValues (some d)
                subSelections { st with newDeferUsages := st.newDeferUsages ++ [d] }
              collectFieldsImpl ctx fuel lv deferU rest st'
        else
          collectFieldsImpl ctx fuel lv deferU rest st
    | .fragmentSpread fragmentName spreadArgs directives =>
        match getDeferUsage ctx.operationType (mergeEnvOpt ctx.variableValues lv)
            directives deferU with
        | .error e => .error e
        | .ok nd =>
          if nd.isNone && (st.visitedFragmentNames.contains fragmentName
              || !shouldIncludeNode (mergeEnvOpt ctx.variableValues lv) directives) then
            collectFieldsImpl ctx fuel lv deferU rest st
          else
            match lookupFragment ctx.fragments fragmentName with
            | none => collectFieldsImpl ctx fuel lv deferU rest st
            | some fragment =>
              if !doesFragmentConditionMatch ctx.schema (some fragment.typeCondition)
                  ctx.runtimeType then
                collectFieldsImpl ctx fuel lv deferU rest st
              else
                let newLv : Option Env :=
                  match fragment.variableDefinitions with
                  | some vds => some (getArgumentValuesFromSpread spreadArgs vds
                      ctx.variableValues st.localVariableValues)
                  | none => none
                match nd with
                | none => do
                    let st' ← collectFieldsImpl ctx fuel newLv deferU
                      fragment.selectionSet
                      { st with localVariableValues := newLv,
                                visitedFragmentNames :=
                                  st.visitedFragmentNames ++ [fragmentName] }
                    collectFieldsImpl ctx fuel lv deferU rest st'
                | some d => do
                    let st' ← collectFieldsImpl ctx fuel newLv (some d)
                      fragment.selectionSet
                      { st with localVariableValues := newLv,
                                newDeferUsages := st.newDeferUsages ++ [d] }
                    collectFieldsImpl ctx fuel lv deferU rest st'

/-- An operation definition, reduced to what collection consumes: its
kind and its top-level selection set. -/
structure OperationDef where
  operationType : OpType
  selectionSet : List Selection

/-- The state a collection pass starts from: empty accumulator, no
defer usages, no visited fragments, `localVariableValues` undefined. -/
def initialCollectSt : CollectSt := ⟨[], [], [], none⟩

/-- `collectFields`: collect the operation's top-level selection set. -/
def collectFields (schema : GSchema) (fragments : Fragments)
    (variableValues : Env) (runtimeType : NamedType) (operation : OperationDef)
    (fuel : Nat) : Except CollectError CollectSt :=
  collectFieldsImpl ⟨schema, fragments, variableValues, operation.operationType, runtimeType⟩
    fuel none none operation.selectionSet initialCollectSt

/-- The loop of `collectSubfields`: one shared context threaded across
every member of the field group (the source creates the context once,
so the visited set and the mutable local scope persist across
iterations), starting each descent from that field's own defer usage. -/
def collectSubfieldsLoop (ctx : CollectCtx) (fuel : Nat) :
    List FieldDetails → CollectSt → Except CollectError CollectSt
  | [], st => .ok st
  | fd :: fds, st =>
    match fd.node.selectionSet with
    | some ss => do
        let st' ← collectFieldsImpl ctx fuel st.localVariableValues fd.deferUsage ss st
        collectSubfieldsLoop ctx fuel fds st'
    | none => collectSubfieldsLoop ctx fuel fds st

/-- `collectSubfields`: collect the union of the sub-selection sets of
an already-collected field group, against the field's return type. -/
def collectSubfields (schema : GSchema) (fragments : Fragments)
    (variableValues : Env) (operation : OperationDef) (returnType : NamedType)
    (fieldGroup : List FieldDetails) (fuel : Nat) : Except CollectError CollectSt :=
  collectSubfieldsLoop
    ⟨schema, fragments, variableValues, operation.operationType, returnType⟩
    fuel fieldGroup initialCollectSt

/-! ## Fragment argument substitution (`utilities/substituteFragmentArguments.ts`) -/

/-- JS `map.set` / computed-property override on a string-keyed map of
value expressions: replace an existing key in place, else append. -/
def setKeyV (m : List (String × Value)) (k : String) (v : Value) :
    List (String × Value) :=
  if m.any (fun p => p.1 == k) then
    m.map (fun p => if p.1 == k then (k, v) else p)
  else
    m ++ [(k, v)]

/-- Key lookup in a string-keyed map of value expressions. -/
def getKeyV (m : List (String × Value)) (k : String) : Option Value :=
  (m.find? (fun p => p.1 == k)).map (fun p => p.2)

/-- The value `substituteFragmentArguments` actually returns: either the
definition's own selection set (the fast path), or — when the definition
declares variables — the result of the source's `reduce` over the
variable definitions, which has no initial accumulator: JavaScript seeds
it with the FIRST `VariableDefinitionNode` and folds `{ ...acc, [key]:
value }` objects over the rest.  The accumulator is therefore the seed
node's properties plus the accumulated name/value bindings, not a
selection set. -/
inductive SubstResult where
  | selSet (selectionSet : List Selection)
  | reduced (seed : VarDef) (bindings : List (String × Value))

/-- One step of the source's `reduce` callback: a spread-supplied value
wins, else the signature's default, else the accumulator is unchanged. -/
def substReduceStep (substitutions : List (String × Value))
    (acc : VarDef × List (String × Value)) (vd : VarDef) :
    VarDef × List (String × Value) :=
  let key := vd.name
  match getKeyV substitutions key with
  | some v => (acc.1, setKeyV acc.2 key v)
  | none =>
      match vd.defaultValue with
      | some d => (acc.1, setKeyV acc.2 key d)
      | none => acc

/-- `substituteFragmentArguments`, as written in the source: the
declared-variables path returns the initial-value-less `reduce` result
(the `return fragmentArgumentSubstitutions(...)`-based substitution
below it is unreachable dead code). -/
def substituteFragmentArguments (fragmentDef : FragmentDef)
    (spreadArgs : List Argument) : SubstResult :=
  match fragmentDef.variableDefinitions with
  | none => .selSet fragmentDef.selectionSet
  | some [] => .selSet fragmentDef.selectionSet
  | some (vd0 :: vds) =>
      let substitutions :=
        spreadArgs.foldl (fun m a => setKeyV m a.name a.value) []
      let r := vds.foldl (substReduceStep substitutions) (vd0, [])
      .reduced r.1 r.2

/-- `fragmentArgumentSubstitutions`: every declared variable name maps
to the spread-supplied value, else the default, else the synthetic
`__UNSET` variable reference. -/
def fragmentArgumentSubstitutions (variableDefinitions : List VarDef)
    (argumentValues : List Argument) : List (String × Value) :=
  let substitutions :=
    argumentValues.foldl (fun m a => setKeyV m a.name a.value) []
  variableDefinitions.foldl (fun subs vd =>
    let argumentName := vd.name
    if subs.any (fun p => p.1 == argumentName) then subs
    else
      match vd.defaultValue with
      | some d => setKeyV subs argumentName d
      | none => setKeyV subs argumentName (.variableV "__UNSET")) substitutions

/-! ## Directive-level predicates used to state the claims -/

/-- The selection carries `@skip` whose `if` argument evaluates to
`true` in the given environment. -/
def skipTrueB (env : Env) (directives : List Directive) : Bool :=
  match getDirectiveValues "skip" directives env with
  | some args =>
      match lookupArg args "if" with
      | some (.rbool true) => true
      | _ => false
  | none => false

/-- The selection carries `@skip` whose `if` argument evaluates to
`false`. -/
def skipFalseB (env : Env) (directives : List Directive) : Bool :=
  match getDirectiveValues "skip" directives env with
  | some args =>
      match lookupArg args "if" with
      | some (.rbool false) => true
      | _ => false
  | none => false

/-- The selection carries `@include` whose `if` argument evaluates to
`false`. -/
def includeFalseB (env : Env) (directives : List Directive) : Bool :=
  match getDirectiveValues "include" directives env with
  | some args =>
      match lookupArg args "if" with
      | some (.rbool false) => true
      | _ => false
  | none => false

/-- The selection carries `@include` whose `if` argument evaluates to
`true`. -/
def includeTrueB (env : Env) (directives : List Directive) : Bool :=
  match getDirectiveValues "include" directives env with
  | some args =>
      match lookupArg args "if" with
      | some (.rbool true) => true
      | _ => false
  | none => false

/-- The node's `@defer` applies: the directive is present and its `if`
argument is not `false` (the condition under which `getDeferUsage`
produces a defer usage or aborts on subscriptions). -/
def deferApplicableB (env : Env) (directives : List Directive) : Bool :=
  match getDirectiveValues "defer" directives env with
  | none => false
  | some args => !rvalEqFalse (lookupArg args "if")

/-! ## Concrete documents used by evaluations and witnesses -/

/-- A concrete object type `T`. -/
def typeT : NamedType := ⟨"T", .objectK⟩

/-- A one-type schema containing `T`. -/
def schemaT : GSchema := ⟨[("T", typeT)], [], []⟩

/-- A plain field `b`. -/
def fieldB : FieldNode := .mk none "b" [] [] none

/-- A plain field `a`. -/
def fieldA : FieldNode := .mk none "a" [] [] none

/-- `@include(if: $x)`. -/
def includeIfX : Directive := ⟨"include", [⟨"if", .variableV "x"⟩]⟩

/-- A field `a @include(if: $x)`. -/
def fieldAIncX : FieldNode := .mk none "a" [] [includeIfX] none

/-- `fragment F($x: Boolean) on T { b }` — declares `$x`, no default. -/
def fragF : FragmentDef := ⟨"F", "T", some [⟨"x", "Boolean", none⟩], [.field fieldB]⟩

/-- `@skip(if: true)`. -/
def skipTrueDir : Directive := ⟨"skip", [⟨"if", .boolV true⟩]⟩

/-- A bare `@defer`. -/
def deferDir : Directive := ⟨"defer", []⟩

/-- `fragment G on T { a }` — no declared variables. -/
def fragG : FragmentDef := ⟨"G", "T", none, [.field fieldA]⟩

/-- The C1 operation: `{ ...F(x: true)  ... { a @include(if: $x) } }`,
a spread of the `$x`-declaring fragment followed by a sibling inline
fragment that reads `$x`. -/
def opScopeLeak : OperationDef :=
  ⟨.query, [.fragmentSpread "F" [⟨"x", .boolV true⟩] [],
            .inlineFragment none [] [.field fieldAIncX]]⟩

/-- The C6 operation: `{ ...G @skip(if: true) @defer }`. -/
def opSkipDefer : OperationDef :=
  ⟨.query, [.fragmentSpread "G" [] [skipTrueDir, deferDir]]⟩

/-- The C10 operation: a subscription spreading an undefined fragment
name under `@defer`. -/
def opMissingFragDefer : OperationDef :=
  ⟨.subscription, [.fragmentSpread "H" [] [deferDir]]⟩

/-! ## Value canonicalization and comparison
(`sortValueNode` / `print`, external collaborators of the validator) -/

mutual
/-- Structural equality of value expressions. -/
def valueBeq : Value → Value → Bool
  | .variableV a, .variableV b => a == b
  | .intV a, .intV b => a == b
  | .strV a, .strV b => a == b
  | .boolV a, .boolV b => a == b
  | .nullV, .nullV => true
  | .enumV a, .enumV b => a == b
  | .listV xs, .listV ys => valueListBeq xs ys
  | .objV xs, .objV ys => valuePairsBeq xs ys
  | _, _ => false

/-- Structural equality of value-expression lists. -/
def valueListBeq : List Value → List Value → Bool
  | [], [] => true
  | x :: xs, y :: ys => valueBeq x y && valueListBeq xs ys
  | _, _ => false

/-- Structural equality of object-field lists (order-sensitive). -/
def valuePairsBeq : List (String × Value) → List (String × Value) → Bool
  | [], [] => true
  | (k1, v1) :: xs, (k2, v2) :: ys => k1 == k2 && valueBeq v1 v2 && valuePairsBeq xs ys
  | _, _ => false
end

/-- Insert an object field into a key-sorted field list. -/
def insertPairByKey (p : String × Value) : List (String × Value) → List (String × Value)
  | [] => [p]
  | q :: qs => if p.1 ≤ q.1 then p :: q :: qs else q :: insertPairByKey p qs

/-- Key-sort an object-field list (insertion sort). -/
def sortPairsByKey : List (String × Value) → List (String × Value)
  | [] => []
  | p :: ps => insertPairByKey p (sortPairsByKey ps)

mutual
/-- Modelled from the spec: §6 "Value printing/canonicalization"
(`sortValueNode`): object-literal fields are recursively sorted by key
so that comparison is order-independent; list order is significant and
preserved. -/
def sortValue : Value → Value
  | .variableV n => .variableV n
  | .intV n => .intV n
  | .strV s => .strV s
  | .boolV b => .boolV b
  | .nullV => .nullV
  | .enumV s => .enumV s
  | .listV vs => .listV (sortValueList vs)
  | .objV fs => .objV (sortPairsByKey (sortValuePairs fs))

/-- Canonicalizes each element of a list value. -/
def sortValueList : List Value → List Value
  | [] => []
  | v :: vs => sortValue v :: sortValueList vs

/-- Canonicalizes each field value of an object value. -/
def sortValuePairs : List (String × Value) → List (String × Value)
  | [] => []
  | (k, v) :: fs => (k, sortValue v) :: sortValuePairs fs
end

/-- `stringifyValue`-based comparison: the source compares
`print(sortValueNode(v1))` with `print(sortValueNode(v2))` as strings;
modelled as structural equality of the canonical forms. -/
def stringifyEq (v1 v2 : Value) : Bool :=
  valueBeq (sortValue v1) (sortValue v2)

mutual
/-- Modelled from the spec: §6 "Value printing": renders a value
expression to a canonical string (object keys in source order; used
only inside fragment-spread keys). -/
def printValue : Value → String
  | .variableV n => "$" ++ n
  | .intV n => toString n
  | .strV s => "\"" ++ s ++ "\""
  | .boolV b => cond b "true" "false"
  | .nullV => "null"
  | .enumV s => s
  | .listV vs => "[" ++ printValueList vs ++ "]"
  | .objV fs => "\x7b" ++ printValuePairs fs ++ "\x7d"

/-- Comma-joined rendering of list elements. -/
def printValueList : List Value → String
  | [] => ""
  | [v] => printValue v
  | v :: vs => printValue v ++ ", " ++ printValueList vs

/-- Comma-joined rendering of object fields. -/
def printValuePairs : List (String × Value) → String
  | [] => ""
  | [(k, v)] => k ++ ": " ++ printValue v
  | (k, v) :: fs => k ++ ": " ++ printValue v ++ ", " ++ printValuePairs fs
end

/-- `sameArguments`: empty/absent argument lists match each other;
otherwise same length, and every argument of the first list must have a
same-named counterpart with a canonically equal value. -/
def sameArguments (args1 args2 : List Argument) : Bool :=
  if args1.isEmpty then args2.isEmpty
  else if args2.isEmpty then false
  else if args1.length != args2.length then false
  else
    let values2 := args2.foldl (fun m a => setKeyV m a.name a.value) []
    args1.all (fun arg1 =>
      match getKeyV values2 arg1.name with
      | none => false
      | some value2 => stringifyEq arg1.value value2)

/-- `getStreamDirective`. -/
def getStreamDirective (directives : List Directive) : Option Directive :=
  directives.find? (fun d => d.name == "stream")

/-- `sameStreams`: both absent, or both present with the same
arguments. -/
def sameStreams (directives1 directives2 : List Directive) : Bool :=
  match getStreamDirective directives1, getStreamDirective directives2 with
  | none, none => true
  | some s1, some s2 => sameArguments s1.arguments s2.arguments
  | _, _ => false

/-- `isLeafType`: scalar or enum. -/
def isLeafTypeB (t : NamedType) : Bool :=
  t.kind == .scalarK || t.kind == .enumK

/-- `isObjectType` on a possibly-absent parent type. -/
def isObjectTypeB : Option NamedType → Bool
  | some t => t.kind == .objectK
  | none => false

/-- `doTypesConflict`: list-vs-non-list and non-null-vs-nullable
wrapper mismatches conflict (recursively); unwrapped leaf types
conflict when distinct; composite named types never conflict here. -/
def doTypesConflict : OutType → OutType → Bool
  | .listOf t1, .listOf t2 => doTypesConflict t1 t2
  | .listOf _, _ => true
  | _, .listOf _ => true
  | .nonNull t1, .nonNull t2 => doTypesConflict t1 t2
  | .nonNull _, _ => true
  | _, .nonNull _ => true
  | .named t1, .named t2 =>
      if isLeafTypeB t1 || isLeafTypeB t2 then decide (t1 ≠ t2) else false

/-- `getNamedType`: strip list and non-null wrappers. -/
def getNamedType : OutType → NamedType
  | .named t => t
  | .listOf t => getNamedType t
  | .nonNull t => getNamedType t

/-- `inspect` on an output type, for conflict messages. -/
def printOutType : OutType → String
  | .named t => t.name
  | .listOf t => "[" ++ printOutType t ++ "]"
  | .nonNull t => printOutType t ++ "!"

/-! ## The overlapping-fields merge validator
(`validation/rules/OverlappingFieldsCanBeMergedRule.ts`) -/

/-- Structural equality of argument lists. -/
def argListBeq : List Argument → List Argument → Bool
  | [], [] => true
  | a :: as_, b :: bs =>
      a.name == b.name && valueBeq a.value b.value && argListBeq as_ bs
  | _, _ => false

/-- Structural equality of directive lists. -/
def dirListBeq : List Directive → List Directive → Bool
  | [], [] => true
  | a :: as_, b :: bs =>
      a.name == b.name && argListBeq a.arguments b.arguments && dirListBeq as_ bs
  | _, _ => false

mutual
/-- Structural equality of selections.  The source's only equality on
selection sets is JavaScript reference identity of memoized extraction
results, which coincides with identity of the selection-set node that
produced them; the embedding replaces node identity by structural
equality. -/
def selBeq : Selection → Selection → Bool
  | .field n1, .field n2 => fieldNodeBeq n1 n2
  | .inlineFragment c1 d1 s1, .inlineFragment c2 d2 s2 =>
      c1 == c2 && dirListBeq d1 d2 && selListBeq s1 s2
  | .fragmentSpread n1 a1 d1, .fragmentSpread n2 a2 d2 =>
      n1 == n2 && argListBeq a1 a2 && dirListBeq d1 d2
  | _, _ => false
  termination_by structural a _b => a

/-- Structural equality of selection lists. -/
def selListBeq : List Selection → List Selection → Bool
  | [], [] => true
  | s :: ss, t :: ts => selBeq s t && selListBeq ss ts
  | _, _ => false
  termination_by structural a _b => a

/-- Structural equality of field nodes. -/
def fieldNodeBeq : FieldNode → FieldNode → Bool
  | .mk a1 n1 args1 d1 ss1, .mk a2 n2 args2 d2 ss2 =>
      a1 == a2 && n1 == n2 && argListBeq args1 args2 && dirListBeq d1 d2
        && optSelListBeq ss1 ss2
  termination_by structural a _b => a

/-- Structural equality of optional selection lists. -/
def optSelListBeq : Option (List Selection) → Option (List Selection) → Bool
  | none, none => true
  | some s, some t => selListBeq s t
  | _, _ => false
  termination_by structural a _b => a
end

/-- A fragment spread node as the validator handles it. -/
structure SpreadInfo where
  name : String
  arguments : List Argument
  directives : List Directive

/-- Insert a string into a sorted string list. -/
def insertSorted (s : String) : List String → List String
  | [] => [s]
  | t :: ts => if s ≤ t then s :: t :: ts else t :: insertSorted s ts

/-- Sort a string list (insertion sort, as the source's
`sort(localeCompare)`). -/
def sortStrings : List String → List String
  | [] => []
  | s :: ss => insertSorted s (sortStrings ss)

/-- Comma-join a string list. -/
def joinComma : List String → String
  | [] => ""
  | [s] => s
  | s :: ss => s ++ "," ++ joinComma ss

/-- Modelled from the spec: fragment spreads are "keyed and compared as
distinct expansions" per supplied argument set
(`utilities/keyForFragmentSpread.ts`, outside the analyzed sources):
the bare fragment name when no arguments are supplied, else the name
followed by the sorted printed arguments. -/
def keyForFragmentSpread (spread : SpreadInfo) : String :=
  if spread.arguments.isEmpty then spread.name
  else
    spread.name ++ "(" ++
      joinComma (sortStrings (spread.arguments.map
        (fun a => a.name ++ ": " ++ printValue a.value))) ++ ")"

mutual
/-- A conflict reason: a response-name field conflict or a
fragment-spread conflict, carrying a message. -/
inductive ConflictReason where
  | fieldR (responseName : String) (reasonMessage : ConflictReasonMessage)
  | fragmentSpreadR (fragmentName : String) (reasonMessage : ConflictReasonMessage)

/-- A reason message: a flat string, or the nested child conflicts. -/
inductive ConflictReasonMessage where
  | flat (msg : String)
  | nested (reasons : List ConflictReason)
end

/-- A node on a conflict's selection path. -/
inductive PathNode where
  | fieldP (node : FieldNode)
  | spreadP (spread : SpreadInfo)

/-- A reported conflict. -/
structure Conflict where
  reason : ConflictReason
  selectionPath1 : List PathNode
  selectionPath2 : List PathNode

/-- One recorded occurrence of a response name: the parent type it was
reached under, the field node, and the field's definition if any
(`NodeAndDef`). -/
structure NodeAndDef where
  parentType : Option NamedType
  node : FieldNode
  fieldDef : Option OutType

/-- `NodeAndDefCollection`: response name to occurrence list, insertion
ordered. -/
abbrev NodeAndDefCollection := List (String × List NodeAndDef)

/-- `Map.get` + push-or-set used by `_collectFieldsAndFragmentSpreads`. -/
def addNodeAndDef (m : NodeAndDefCollection) (k : String) (v : NodeAndDef) :
    NodeAndDefCollection :=
  if m.any (fun p => p.1 == k) then
    m.map (fun p => if p.1 == k then (p.1, p.2 ++ [v]) else p)
  else
    m ++ [(k, [v])]

/-- Spread collection keyed by spread key (`ObjMap<FragmentSpreadNode>`):
assigning an existing key replaces the value in place, a new key is
appended (JS object insertion order). -/
def setSpread (m : List (String × SpreadInfo)) (k : String) (v : SpreadInfo) :
    List (String × SpreadInfo) :=
  if m.any (fun p => p.1 == k) then
    m.map (fun p => if p.1 == k then (p.1, v) else p)
  else
    m ++ [(k, v)]

mutual
/-- `_collectFieldsAndFragmentSpreads`, one selection: record a field
(with its definition when the parent is an object or interface type),
record a spread by its key, or descend into an inline fragment with its
narrowed parent type. -/
def collectFieldsAndFragmentSpreadsSel (schema : GSchema) :
    Selection → Option NamedType → NodeAndDefCollection →
    List (String × SpreadInfo) → NodeAndDefCollection × List (String × SpreadInfo)
  | .field node, parentType, nads, fs =>
      let fieldName := node.name
      let fieldDef :=
        match parentType with
        | some pt =>
            if pt.kind == .objectK || pt.kind == .interfaceK then
              schema.fieldType pt.name fieldName
            else none
        | none => none
      let responseName :=
        match node.fieldAlias with
        | some a => a
        | none => fieldName
      (addNodeAndDef nads responseName ⟨parentType, node, fieldDef⟩, fs)
  | .fragmentSpread sname sargs sdirs, _, nads, fs =>
      let spread : SpreadInfo := ⟨sname, sargs, sdirs⟩
      (nads, setSpread fs (keyForFragmentSpread spread) spread)
  | .inlineFragment typeCondition _ subsels, parentType, nads, fs =>
      let inlineFragmentType :=
        match typeCondition with
        | some tc => typeFromAST schema tc
        | none => parentType
      collectFieldsAndFragmentSpreadsList schema subsels inlineFragmentType nads fs
  termination_by structural sel => sel

/-- `_collectFieldsAndFragmentSpreads`, a selection list, left to
right. -/
def collectFieldsAndFragmentSpreadsList (schema : GSchema) :
    List Selection → Option NamedType → NodeAndDefCollection →
    List (String × SpreadInfo) → NodeAndDefCollection × List (String × SpreadInfo)
  | [], _, nads, fs => (nads, fs)
  | sel :: rest, parentType, nads, fs =>
      let r := collectFieldsAndFragmentSpreadsSel schema sel parentType nads fs
      collectFieldsAndFragmentSpreadsList schema rest parentType r.1 r.2
  termination_by structural sels => sels
end

/-- `getFieldsAndFragmentSpreads` (the per-run memoization cache is a
performance device keyed by node identity and is omitted; the function
is pure in its inputs). -/
def getFieldsAndFragmentSpreads (schema : GSchema) (parentType : Option NamedType)
    (selectionSet : List Selection) :
    NodeAndDefCollection × List (String × SpreadInfo) :=
  collectFieldsAndFragmentSpreadsList schema selectionSet parentType [] []

/-- Abnormal outcomes of the embedded validator: fuel exhaustion of the
embedding, and the JavaScript `TypeError` that iterating the broken
`substituteFragmentArguments` result would raise. -/
inductive VError where
  | outOfFuel
  | typeError
deriving DecidableEq

/-- `getReferencedFieldsAndFragmentSpreads`: materialize the fragment's
effective selection set via fragment-argument substitution, then
extract its fields and spreads under the fragment's type condition.
When the definition declares variables, `substituteFragmentArguments`
returns its `reduce` accumulator instead of a selection set, and
iterating its `.selections` raises a `TypeError`. -/
def getReferencedFieldsAndFragmentSpreads (schema : GSchema)
    (fragmentDef : FragmentDef) (spread : SpreadInfo) :
    Except VError (NodeAndDefCollection × List (String × SpreadInfo) × List Selection) :=
  match substituteFragmentArguments fragmentDef spread.arguments with
  | .reduced _ _ => .error .typeError
  | .selSet fragmentSelectionSet =>
      let fragmentType := typeFromAST schema fragmentDef.typeCondition
      let r := getFieldsAndFragmentSpreads schema fragmentType fragmentSelectionSet
      .ok (r.1, r.2, fragmentSelectionSet)

/-! ## The memoized pair set (`PairSet`) -/

/-- `Map.get`: first entry with the key. -/
def assocGet {α : Type} (m : List (String × α)) (k : String) : Option α :=
  (m.find? (fun p => p.1 == k)).map (fun p => p.2)

/-- `Map.set`: replace an existing entry's value in place, else append
(JS `Map` insertion order). -/
def assocSet {α : Type} (m : List (String × α)) (k : String) (v : α) :
    List (String × α) :=
  if m.any (fun p => p.1 == k) then
    m.map (fun p => if p.1 == k then (p.1, v) else p)
  else
    m ++ [(k, v)]

/-- `PairSet`: pairs of string keys, order-insensitive, each recorded
with the mutual-exclusivity flag it was compared under. -/
structure PairSet where
  data : List (String × List (String × Bool))

/-- The empty pair set. -/
def PairSet.empty : PairSet := ⟨[]⟩

/-- The source's normalization `a < b ? [a, b] : [b, a]`. -/
def pairKeys (a b : String) : String × String :=
  if a < b then (a, b) else (b, a)

/-- Nested map lookup. -/
def PairSet.get (ps : PairSet) (k1 k2 : String) : Option Bool :=
  match assocGet ps.data k1 with
  | none => none
  | some inner => assocGet inner k2

/-- `PairSet.has`: a pair recorded without mutual exclusivity also
answers queries that assume it; a pair recorded with it does not answer
queries that do not. -/
def PairSet.has (ps : PairSet) (a b : String) (areMutuallyExclusive : Bool) : Bool :=
  let k := pairKeys a b
  match ps.get k.1 k.2 with
  | none => false
  | some result => if areMutuallyExclusive then true else areMutuallyExclusive == result

/-- `PairSet.add`: create the inner map when the first key is new, else
set into the existing inner map. -/
def PairSet.add (ps : PairSet) (a b : String) (areMutuallyExclusive : Bool) : PairSet :=
  let k := pairKeys a b
  match assocGet ps.data k.1 with
  | none => ⟨ps.data ++ [(k.1, [(k.2, areMutuallyExclusive)])]⟩
  | some inner => ⟨assocSet ps.data k.1 (assocSet inner k.2 areMutuallyExclusive)⟩

/-- The validator's fixed inputs: the schema and the document's
fragment definitions (`context.getSchema()` / `context.getFragment`). -/
structure VCtx where
  schema : GSchema
  fragments : Fragments

/-- The validator's threaded mutable state: the conflicts reported so
far and the memoized compared-fragment-pairs set. -/
abbrev VSt := List Conflict × PairSet

/-- `subfieldConflicts`: fold nested sub-selection conflicts into one
parent conflict whose reason carries the nested reasons. -/
def subfieldConflicts (conflicts : List Conflict) (responseName : String)
    (node1 node2 : FieldNode) : Option Conflict :=
  if conflicts.length > 0 then
    some ⟨.fieldR responseName (.nested (conflicts.map (fun c => c.reason))),
      .fieldP node1 :: (conflicts.map (fun c => c.selectionPath1)).flatten,
      .fieldP node2 :: (conflicts.map (fun c => c.selectionPath2)).flatten⟩
  else none

mutual
/-- `findFieldConflicts`: one pairwise field comparison, in source
order — mutual exclusivity suppresses the field-name and argument
checks only; stream and return-type checks always run; finally the two
sub-selection sets are compared recursively. -/
def findFieldConflicts (ctx : VCtx) :
    Nat → Bool → String → NodeAndDef → NodeAndDef → PairSet →
    Except VError (Option Conflict × PairSet)
  | 0, _, _, _, _, _ => .error .outOfFuel
  | fuel + 1, parentFieldsAreMutuallyExclusive, responseName, field1, field2, pairs =>
    let node1 := field1.node
    let node2 := field2.node
    let areMutuallyExclusive := parentFieldsAreMutuallyExclusive
      || (decide (field1.parentType ≠ field2.parentType)
          && isObjectTypeB field1.parentType && isObjectTypeB field2.parentType)
    if !areMutuallyExclusive && node1.name != node2.name then
      .ok (some ⟨.fieldR responseName
          (.flat ("\"" ++ node1.name ++ "\" and \"" ++ node2.name
            ++ "\" are different fields")),
        [.fieldP node1], [.fieldP node2]⟩, pairs)
    else if !areMutuallyExclusive && !sameArguments node1.arguments node2.arguments then
      .ok (some ⟨.fieldR responseName (.flat "they have differing arguments"),
        [.fieldP node1], [.fieldP node2]⟩, pairs)
    else if !sameStreams node1.directives node2.directives then
      .ok (some ⟨.fieldR responseName (.flat "they have differing stream directives"),
        [.fieldP node1], [.fieldP node2]⟩, pairs)
    else
      match (match field1.fieldDef, field2.fieldDef with
             | some t1, some t2 =>
                 if doTypesConflict t1 t2 then some (t1, t2) else none
             | _, _ => none) with
      | some (t1, t2) =>
          .ok (some ⟨.fieldR responseName
              (.flat ("they return conflicting types \"" ++ printOutType t1
                ++ "\" and \"" ++ printOutType t2 ++ "\"")),
            [.fieldP node1], [.fieldP node2]⟩, pairs)
      | none =>
          match node1.selectionSet, node2.selectionSet with
          | some selectionSet1, some selectionSet2 => do
              let r ← findConflictsBetweenSubSelectionSets ctx fuel areMutuallyExclusive
                (field1.fieldDef.map getNamedType) selectionSet1
                (field2.fieldDef.map getNamedType) selectionSet2 pairs
              .ok (subfieldConflicts r.1 responseName node1 node2, r.2)
          | _, _ => .ok (none, pairs)

  termination_by structural fuel => fuel

/-- `findConflictsBetweenSubSelectionSets`: steps (H), (I), (J). -/
def findConflictsBetweenSubSelectionSets (ctx : VCtx) :
    Nat → Bool → Option NamedType → List Selection → Option NamedType →
    List Selection → PairSet → Except VError VSt
  | 0, _, _, _, _, _, _ => .error .outOfFuel
  | fuel + 1, areMutuallyExclusive, parentType1, selectionSet1, parentType2,
      selectionSet2, pairs =>
    let r1 := getFieldsAndFragmentSpreads ctx.schema parentType1 selectionSet1
    let r2 := getFieldsAndFragmentSpreads ctx.schema parentType2 selectionSet2
    do
      let st1 ← collectConflictsBetween ctx fuel areMutuallyExclusive r1.1 r2.1 ([], pairs)
      let st2 ← betweenSubSpreadsLoop ctx fuel areMutuallyExclusive r1.1 selectionSet1
        (r2.2.map (fun p => p.2)) st1
      let st3 ← betweenSubSpreadsLoop ctx fuel areMutuallyExclusive r2.1 selectionSet2
        (r1.2.map (fun p => p.2)) st2
      subSpreadPairsOuter ctx fuel areMutuallyExclusive (r1.2.map (fun p => p.2))
        (r2.2.map (fun p => p.2)) st3

  termination_by structural fuel => fuel

/-- Step (I): compare one collection of fields with every spread of the
other sub-selection set. -/
def betweenSubSpreadsLoop (ctx : VCtx) :
    Nat → Bool → NodeAndDefCollection → List Selection → List SpreadInfo → VSt →
    Except VError VSt
  | 0, _, _, _, _, _ => .error .outOfFuel
  | _ + 1, _, _, _, [], st => .ok st
  | fuel + 1, areMutuallyExclusive, fieldMap, ssOrigin, spread :: rest, st => do
      let st' ← collectConflictsBetweenFieldsAndFragment ctx fuel areMutuallyExclusive
        fieldMap ssOrigin spread st
      betweenSubSpreadsLoop ctx fuel areMutuallyExclusive fieldMap ssOrigin rest st'

  termination_by structural fuel => fuel

/-- Step (J), outer loop: every spread of the first sub-selection set
against every spread of the second. -/
def subSpreadPairsOuter (ctx : VCtx) :
    Nat → Bool → List SpreadInfo → List SpreadInfo → VSt → Except VError VSt
  | 0, _, _, _, _ => .error .outOfFuel
  | _ + 1, _, [], _, st => .ok st
  | fuel + 1, areMutuallyExclusive, spread1 :: rest, spreads2, st => do
      let st' ← subSpreadPairsInner ctx fuel areMutuallyExclusive spread1 spreads2 st
      subSpreadPairsOuter ctx fuel areMutuallyExclusive rest spreads2 st'

  termination_by structural fuel => fuel

/-- Step (J), inner loop. -/
def subSpreadPairsInner (ctx : VCtx) :
    Nat → Bool → SpreadInfo → List SpreadInfo → VSt → Except VError VSt
  | 0, _, _, _, _ => .error .outOfFuel
  | _ + 1, _, _, [], st => .ok st
  | fuel + 1, areMutuallyExclusive, spread1, spread2 :: rest, st => do
      let st' ← collectConflictsBetweenFragments ctx fuel areMutuallyExclusive
        spread1 spread2 st
      subSpreadPairsInner ctx fuel areMutuallyExclusive spread1 rest st'

  termination_by structural fuel => fuel

/-- `collectConflictsBetween`: for every response name present in both
field maps, compare each occurrence of the first with each of the
second. -/
def collectConflictsBetween (ctx : VCtx) :
    Nat → Bool → NodeAndDefCollection → NodeAndDefCollection → VSt →
    Except VError VSt
  | 0, _, _, _, _ => .error .outOfFuel
  | _ + 1, _, [], _, st => .ok st
  | fuel + 1, parentFieldsAreMutuallyExclusive, (responseName, fields1) :: rest,
      fieldMap2, st =>
    match (fieldMap2.find? (fun p => p.1 == responseName)).map (fun p => p.2) with
    | none => collectConflictsBetween ctx fuel parentFieldsAreMutuallyExclusive rest
        fieldMap2 st
    | some fields2 => do
        let st' ← betweenFieldsOuter ctx fuel parentFieldsAreMutuallyExclusive
          responseName fields1 fields2 st
        collectConflictsBetween ctx fuel parentFieldsAreMutuallyExclusive rest
          fieldMap2 st'

  termination_by structural fuel => fuel

/-- The outer loop of one `collectConflictsBetween` entry. -/
def betweenFieldsOuter (ctx : VCtx) :
    Nat → Bool → String → List NodeAndDef → List NodeAndDef → VSt →
    Except VError VSt
  | 0, _, _, _, _, _ => .error .outOfFuel
  | _ + 1, _, _, [], _, st => .ok st
  | fuel + 1, pmx, responseName, field1 :: rest, fields2, st => do
      let st' ← betweenFieldsInner ctx fuel pmx responseName field1 fields2 st
      betweenFieldsOuter ctx fuel pmx responseName rest fields2 st'

  termination_by structural fuel => fuel

/-- The inner loop of one `collectConflictsBetween` entry: run the
pairwise comparison and push any conflict found. -/
def betweenFieldsInner (ctx : VCtx) :
    Nat → Bool → String → NodeAndDef → List NodeAndDef → VSt → Except VError VSt
  | 0, _, _, _, _, _ => .error .outOfFuel
  | _ + 1, _, _, _, [], st => .ok st
  | fuel + 1, pmx, responseName, field1, field2 :: rest, st => do
      let r ← findFieldConflicts ctx fuel pmx responseName field1 field2 st.2
      match r.1 with
      | some conflict =>
          betweenFieldsInner ctx fuel pmx responseName field1 rest (st.1 ++ [conflict], r.2)
      | none => betweenFieldsInner ctx fuel pmx responseName field1 rest (st.1, r.2)

  termination_by structural fuel => fuel

/-- `collectConflictsWithin`: compare every pair of same-response-name
occurrences within one collection (never mutually exclusive). -/
def collectConflictsWithin (ctx : VCtx) :
    Nat → NodeAndDefCollection → VSt → Except VError VSt
  | 0, _, _ => .error .outOfFuel
  | _ + 1, [], st => .ok st
  | fuel + 1, (responseName, fields) :: rest, st =>
    if fields.length > 1 then do
      let st' ← withinPairsOuter ctx fuel responseName fields st
      collectConflictsWithin ctx fuel rest st'
    else
      collectConflictsWithin ctx fuel rest st

  termination_by structural fuel => fuel

/-- The outer triangular loop of `collectConflictsWithin`. -/
def withinPairsOuter (ctx : VCtx) :
    Nat → String → List NodeAndDef → VSt → Except VError VSt
  | 0, _, _, _ => .error .outOfFuel
  | _ + 1, _, [], st => .ok st
  | fuel + 1, responseName, field1 :: rest, st => do
      let st' ← withinPairsInner ctx fuel responseName field1 rest st
      withinPairsOuter ctx fuel responseName rest st'

  termination_by structural fuel => fuel

/-- The inner triangular loop of `collectConflictsWithin`. -/
def withinPairsInner (ctx : VCtx) :
    Nat → String → NodeAndDef → List NodeAndDef → VSt → Except VError VSt
  | 0, _, _, _, _ => .error .outOfFuel
  | _ + 1, _, _, [], st => .ok st
  | fuel + 1, responseName, field1, field2 :: rest, st => do
      let r ← findFieldConflicts ctx fuel false responseName field1 field2 st.2
      match r.1 with
      | some conflict =>
          withinPairsInner ctx fuel responseName field1 rest (st.1 ++ [conflict], r.2)
      | none => withinPairsInner ctx fuel responseName field1 rest (st.1, r.2)

  termination_by structural fuel => fuel

/-- `collectConflictsBetweenFieldsAndFragment`: steps (D) and (E); the
source's identity check `fieldMap === fieldMap2` (do not compare a
fragment's own field map to itself) is rendered as structural equality
of the originating selection sets. -/
def collectConflictsBetweenFieldsAndFragment (ctx : VCtx) :
    Nat → Bool → NodeAndDefCollection → List Selection → SpreadInfo → VSt →
    Except VError VSt
  | 0, _, _, _, _, _ => .error .outOfFuel
  | fuel + 1, areMutuallyExclusive, fieldMap, ssOrigin, fragmentSpread, st =>
    match lookupFragment ctx.fragments fragmentSpread.name with
    | none => .ok st
    | some fragmentDef =>
      let fragmentKey := keyForFragmentSpread fragmentSpread
      match getReferencedFieldsAndFragmentSpreads ctx.schema fragmentDef fragmentSpread with
      | .error e => .error e
      | .ok (fieldMap2, referencedSpreads, effectiveSS) =>
          if selListBeq ssOrigin effectiveSS then .ok st
          else do
            let st1 ← collectConflictsBetween ctx fuel areMutuallyExclusive
              fieldMap fieldMap2 st
            fieldsAndFragmentRefLoop ctx fuel areMutuallyExclusive fieldMap ssOrigin
              fragmentKey referencedSpreads st1

  termination_by structural fuel => fuel

/-- Step (E): recurse from the fields into each fragment referenced by
the compared fragment, memoized by the pair set. -/
def fieldsAndFragmentRefLoop (ctx : VCtx) :
    Nat → Bool → NodeAndDefCollection → List Selection → String →
    List (String × SpreadInfo) → VSt → Except VError VSt
  | 0, _, _, _, _, _, _ => .error .outOfFuel
  | _ + 1, _, _, _, _, [], st => .ok st
  | fuel + 1, areMutuallyExclusive, fieldMap, ssOrigin, fragmentKey,
      (referencedKey, referencedSpread) :: rest, st =>
    if st.2.has referencedKey fragmentKey areMutuallyExclusive then
      fieldsAndFragmentRefLoop ctx fuel areMutuallyExclusive fieldMap ssOrigin
        fragmentKey rest st
    else do
      let st1 : VSt := (st.1, st.2.add referencedKey fragmentKey areMutuallyExclusive)
      let st2 ← collectConflictsBetweenFieldsAndFragment ctx fuel areMutuallyExclusive
        fieldMap ssOrigin referencedSpread st1
      fieldsAndFragmentRefLoop ctx fuel areMutuallyExclusive fieldMap ssOrigin
        fragmentKey rest st2

  termination_by structural fuel => fuel

/-- `collectConflictsBetweenFragments`: two spreads with equal keys are
never compared; an already-compared pair is skipped; two distinct
spread keys of the same fragment name record one direct
different-fragment-arguments conflict without recursing; otherwise
steps (F) and (G). -/
def collectConflictsBetweenFragments (ctx : VCtx) :
    Nat → Bool → SpreadInfo → SpreadInfo → VSt → Except VError VSt
  | 0, _, _, _, _ => .error .outOfFuel
  | fuel + 1, areMutuallyExclusive, fragmentSpread1, fragmentSpread2, st =>
    let fragmentKey1 := keyForFragmentSpread fragmentSpread1
    let fragmentKey2 := keyForFragmentSpread fragmentSpread2
    if fragmentKey1 == fragmentKey2 then .ok st
    else if st.2.has fragmentKey1 fragmentKey2 areMutuallyExclusive then .ok st
    else
      let stAdded : VSt := (st.1, st.2.add fragmentKey1 fragmentKey2 areMutuallyExclusive)
      if fragmentSpread1.name == fragmentSpread2.name then
        .ok (stAdded.1 ++ [⟨.fragmentSpreadR fragmentSpread1.name
            (.flat (fragmentKey1 ++ " and " ++ fragmentKey2
              ++ " have different fragment arguments")),
          [.spreadP fragmentSpread1], [.spreadP fragmentSpread2]⟩], stAdded.2)
      else
        match lookupFragment ctx.fragments fragmentSpread1.name,
            lookupFragment ctx.fragments fragmentSpread2.name with
        | some fragmentDef1, some fragmentDef2 => do
            let r1 ← getReferencedFieldsAndFragmentSpreads ctx.schema fragmentDef1
              fragmentSpread1
            let r2 ← getReferencedFieldsAndFragmentSpreads ctx.schema fragmentDef2
              fragmentSpread2
            let st1 ← collectConflictsBetween ctx fuel areMutuallyExclusive r1.1 r2.1
              stAdded
            let st2 ← fragmentsRefLoop2 ctx fuel areMutuallyExclusive fragmentSpread1
              (r2.2.1.map (fun p => p.2)) st1
            fragmentsRefLoop1 ctx fuel areMutuallyExclusive
              (r1.2.1.map (fun p => p.2)) fragmentSpread2 st2
        | _, _ => .ok stAdded

  termination_by structural fuel => fuel

/-- Step (G): the first fragment against each fragment referenced by
the second. -/
def fragmentsRefLoop2 (ctx : VCtx) :
    Nat → Bool → SpreadInfo → List SpreadInfo → VSt → Except VError VSt
  | 0, _, _, _, _ => .error .outOfFuel
  | _ + 1, _, _, [], st => .ok st
  | fuel + 1, areMutuallyExclusive, fragmentSpread1, referencedSpread2 :: rest, st => do
      let st' ← collectConflictsBetweenFragments ctx fuel areMutuallyExclusive
        fragmentSpread1 referencedSpread2 st
      fragmentsRefLoop2 ctx fuel areMutuallyExclusive fragmentSpread1 rest st'

  termination_by structural fuel => fuel

/-- Step (G): each fragment referenced by the first against the second
fragment. -/
def fragmentsRefLoop1 (ctx : VCtx) :
    Nat → Bool → List SpreadInfo → SpreadInfo → VSt → Except VError VSt
  | 0, _, _, _, _ => .error .outOfFuel
  | _ + 1, _, [], _, st => .ok st
  | fuel + 1, areMutuallyExclusive, referencedSpread1 :: rest, fragmentSpread2, st => do
      let st' ← collectConflictsBetweenFragments ctx fuel areMutuallyExclusive
        referencedSpread1 fragmentSpread2 st
      fragmentsRefLoop1 ctx fuel areMutuallyExclusive rest fragmentSpread2 st'

  termination_by structural fuel => fuel

/-- `findConflictsWithinSelectionSet`: step (A) on the set's own field
map, then steps (B) and (C) over the spreads it references. -/
def findConflictsWithinSelectionSet (ctx : VCtx) :
    Nat → Option NamedType → List Selection → PairSet → Except VError VSt
  | 0, _, _, _ => .error .outOfFuel
  | fuel + 1, parentType, selectionSet, pairs =>
    let r := getFieldsAndFragmentSpreads ctx.schema parentType selectionSet
    do
      let st1 ← collectConflictsWithin ctx fuel r.1 ([], pairs)
      withinSpreadsOuter ctx fuel r.1 selectionSet (r.2.map (fun p => p.2)) st1

/-- Steps (B) and (C), outer loop. -/
def withinSpreadsOuter (ctx : VCtx) :
    Nat → NodeAndDefCollection → List Selection → List SpreadInfo → VSt →
    Except VError VSt
  | 0, _, _, _, _ => .error .outOfFuel
  | _ + 1, _, _, [], st => .ok st
  | fuel + 1, fieldMap, ssOrigin, spread :: rest, st => do
      let st1 ← collectConflictsBetweenFieldsAndFragment ctx fuel false fieldMap
        ssOrigin spread st
      let st2 ← withinSpreadsInner ctx fuel spread rest st1
      withinSpreadsOuter ctx fuel fieldMap ssOrigin rest st2

  termination_by structural fuel => fuel

/-- Step (C), inner loop: this spread against every later spread. -/
def withinSpreadsInner (ctx : VCtx) :
    Nat → SpreadInfo → List SpreadInfo → VSt → Except VError VSt
  | 0, _, _, _ => .error .outOfFuel
  | _ + 1, _, [], st => .ok st
  | fuel + 1, spread1, spread2 :: rest, st => do
      let st' ← collectConflictsBetweenFragments ctx fuel false spread1 spread2 st
      withinSpreadsInner ctx fuel spread1 rest st'

  termination_by structural fuel => fuel
end

/-! ## Concrete schema and documents for the validator claims -/

/-- Interface type `Pet`. -/
def petT : NamedType := ⟨"Pet", .interfaceK⟩

/-- Concrete object type `Dog`. -/
def dogT : NamedType := ⟨"Dog", .objectK⟩

/-- Concrete object type `Cat`. -/
def catT : NamedType := ⟨"Cat", .objectK⟩

/-- Scalar `Int`. -/
def intT : NamedType := ⟨"Int", .scalarK⟩

/-- Scalar `String`. -/
def strT : NamedType := ⟨"String", .scalarK⟩

/-- A schema where `Dog` and `Cat` implement `Pet`, with `Dog.x : Int`
and `Cat.x : String`. -/
def petSchema : GSchema :=
  ⟨[("Pet", petT), ("Dog", dogT), ("Cat", catT), ("Int", intT), ("String", strT)],
   [("Pet", "Dog"), ("Pet", "Cat")],
   [(("Dog", "x"), .named intT), (("Cat", "x"), .named strT)]⟩

/-- The plain field `x`. -/
def fieldX : FieldNode := .mk none "x" [] [] none

/-- `{ ... on Dog { x }  ... on Cat { x } }` under a `Pet`-typed
parent: each `x` reachable only through its own type-narrowing inline
fragment. -/
def dogCatSS : List Selection :=
  [.inlineFragment (some "Dog") [] [.field fieldX],
   .inlineFragment (some "Cat") [] [.field fieldX]]

/-- The recorded occurrence of `x` on `Dog` (`x: Int`). -/
def dogFieldX : NodeAndDef := ⟨some dogT, fieldX, some (.named intT)⟩

/-- The recorded occurrence of `x` on `Cat` (`x: String`). -/
def catFieldX : NodeAndDef := ⟨some catT, fieldX, some (.named strT)⟩

/-- The spread `...F(x: 1)`. -/
def spreadFx1 : SpreadInfo := ⟨"F", [⟨"x", .intV 1⟩], []⟩

/-- The spread `...F(x: 2)`. -/
def spreadFx2 : SpreadInfo := ⟨"F", [⟨"x", .intV 2⟩], []⟩

/-- The conflict the validator reports for `Dog.x : Int` vs
`Cat.x : String`. -/
def dogCatTypesConflict : Conflict :=
  ⟨.fieldR "x" (.flat "they return conflicting types \"Int\" and \"String\""),
   [.fieldP fieldX], [.fieldP fieldX]⟩

/-! ## The spec-side response-key encounter order

The spec states the Grouped Field Set's key order as "the order in
which response keys are first encountered in a left-to-right,
depth-first traversal of the selection set" with fragment spreads and
inline fragments expanded in place (§8 "Order preservation" together
with the traversal rules of §4.2).  `specKeyTrace` is that traversal,
written from the spec's words: it produces the flat left-to-right
sequence of response keys of the included fields, threading only the
visited-fragment-name set and the fragment-local scope that §4.2's
rules make the traversal depend on. -/

/-- The traversal state the spec's rules depend on: visited fragment
names and the fragment-local variable scope currently in effect. -/
structure TraceSt where
  visitedFragmentNames : List String
  localVariableValues : Option Env

/-- The spec's depth-first, left-to-right traversal, emitting each
included field's response key at the moment it is encountered. -/
def specKeyTrace (ctx : CollectCtx) :
    Nat → Option Env → List Selection → TraceSt →
    Except CollectError (TraceSt × List String)
  | 0, _, _, _ => .error .outOfFuel
  | _ + 1, _, [], ts => .ok (ts, [])
  | fuel + 1, lv, sel :: rest, ts =>
    match sel with
    | .field node =>
        if shouldIncludeNode (mergeEnvOpt ctx.variableValues lv) node.directives then
          match specKeyTrace ctx fuel lv rest ts with
          | .error e => .error e
          | .ok r => .ok (r.1, getFieldEntryKey node :: r.2)
        else specKeyTrace ctx fuel lv rest ts
    | .inlineFragment typeCondition directives subSelections =>
        if shouldIncludeNode (mergeEnvOpt ctx.variableValues lv) directives
            && doesFragmentConditionMatch ctx.schema typeCondition ctx.runtimeType then
          match getDeferUsage ctx.operationType ctx.variableValues directives none with
          | .error e => .error e
          | .ok _ =>
              match specKeyTrace ctx fuel ts.localVariableValues subSelections ts with
              | .error e => .error e
              | .ok r1 =>
                  match specKeyTrace ctx fuel lv rest r1.1 with
                  | .error e => .error e
                  | .ok r2 => .ok (r2.1, r1.2 ++ r2.2)
        else specKeyTrace ctx fuel lv rest ts
    | .fragmentSpread fragmentName spreadArgs directives =>
        match getDeferUsage ctx.operationType (mergeEnvOpt ctx.variableValues lv)
            directives none with
        | .error e => .error e
        | .ok nd =>
          if nd.isNone && (ts.visitedFragmentNames.contains fragmentName
              || !shouldIncludeNode (mergeEnvOpt ctx.variableValues lv) directives) then
            specKeyTrace ctx fuel lv rest ts
          else
            match lookupFragment ctx.fragments fragmentName with
            | none => specKeyTrace ctx fuel lv rest ts
            | some fragment =>
              if !doesFragmentConditionMatch ctx.schema (some fragment.typeCondition)
                  ctx.runtimeType then
                specKeyTrace ctx fuel lv rest ts
              else
                let newLv : Option Env :=
                  match fragment.variableDefinitions with
                  | some vds => some (getArgumentValuesFromSpread spreadArgs vds
                      ctx.variableValues ts.localVariableValues)
                  | none => none
                let ts1 : TraceSt :=
                  if nd.isNone then
                    ⟨ts.visitedFragmentNames ++ [fragmentName], newLv⟩
                  else ⟨ts.visitedFragmentNames, newLv⟩
                match specKeyTrace ctx fuel newLv fragment.selectionSet ts1 with
                | .error e => .error e
                | .ok r1 =>
                    match specKeyTrace ctx fuel lv rest r1.1 with
                    | .error e => .error e
                    | .ok r2 => .ok (r2.1, r1.2 ++ r2.2)

/-- The spec traversal started at an operation's top level. -/
def specKeyTraceOperation (schema : GSchema) (fragments : Fragments)
    (variableValues : Env) (runtimeType : NamedType) (operation : OperationDef)
    (fuel : Nat) : Except CollectError (TraceSt × List String) :=
  specKeyTrace ⟨schema, fragments, variableValues, operation.operationType, runtimeType⟩
    fuel none operation.selectionSet ⟨[], none⟩

/-- The spec traversal over a field group's sub-selection sets, in
order, threading one state as `collectSubfields` does. -/
def specKeyTraceGroupLoop (ctx : CollectCtx) (fuel : Nat) :
    List FieldDetails → TraceSt → Except CollectError (TraceSt × List String)
  | [], ts => .ok (ts, [])
  | fd :: fds, ts =>
    match fd.node.selectionSet with
    | some ss =>
        match specKeyTrace ctx fuel ts.localVariableValues ss ts with
        | .error e => .error e
        | .ok r1 =>
            match specKeyTraceGroupLoop ctx fuel fds r1.1 with
            | .error e => .error e
            | .ok r2 => .ok (r2.1, r1.2 ++ r2.2)
    | none => specKeyTraceGroupLoop ctx fuel fds ts

/-- The spec traversal for `collectSubfields`. -/
def specKeyTraceSubfields (schema : GSchema) (fragments : Fragments)
    (variableValues : Env) (operation : OperationDef) (returnType : NamedType)
    (fieldGroup : List FieldDetails) (fuel : Nat) :
    Except CollectError (TraceSt × List String) :=
  specKeyTraceGroupLoop
    ⟨schema, fragments, variableValues, operation.operationType, returnType⟩
    fuel fieldGroup ⟨[], none⟩

/-- Append a key only on its first encounter. -/
def addKeyOnce (l : List String) (k : String) : List String :=
  if l.any (fun x => x == k) then l else l ++ [k]

/-- The first-encounter order of a key sequence. -/
def firstEncounterOrder (ks : List String) : List String :=
  ks.foldl addKeyOnce []

/-- A concrete field group for exercising `collectSubfields`: one field
`f` whose sub-selection is `{ a b }`. -/
def c5group : List FieldDetails :=
  [⟨.mk none "f" [] [] (some [.field fieldA, .field fieldB]), none, none⟩]

/-- The concrete state returned by `collectFields` on the C1 document
(extracted from the computation itself). -/
def c5stO : CollectSt :=
  match collectFields schemaT [("F", fragF)] [("x", .rbool false)] typeT
      opScopeLeak 10 with
  | .ok st => st
  | .error _ => initialCollectSt

/-- A directive list carrying no `@defer` directive. -/
def dirsNoDefer (dirs : List Directive) : Bool :=
  !dirs.any (fun d => d.name == "defer")

mutual
/-- No inline fragment or fragment spread reachable at the depth
`collectFieldsImpl` traverses (inline-fragment sub-selections, but not
field sub-selections) carries a `@defer` directive. -/
def selNoDefer : Selection → Bool
  | .field _ => true
  | .inlineFragment _ dirs subs => dirsNoDefer dirs && selsNoDefer subs
  | .fragmentSpread _ _ dirs => dirsNoDefer dirs
  termination_by structural s => s

/-- `selNoDefer` over a selection list. -/
def selsNoDefer : List Selection → Bool
  | [] => true
  | s :: rest => selNoDefer s && selsNoDefer rest
  termination_by structural l => l
end

/-- Every fragment definition in the table is `@defer`-free. -/
def fragmentsNoDefer (fragments : Fragments) : Bool :=
  fragments.all (fun p => selsNoDefer p.2.selectionSet)

mutual
/-- The size of one selection: a field or spread counts one; an inline
fragment counts one plus its sub-selections. -/
def selSize : Selection → Nat
  | .field _ => 1
  | .inlineFragment _ _ subs => 1 + selsSize subs
  | .fragmentSpread _ _ _ => 1
  termination_by structural s => s

/-- The size of a selection list. -/
def selsSize : List Selection → Nat
  | [] => 0
  | s :: rest => selSize s + selsSize rest
  termination_by structural l => l
end

/-- The remaining weight of the fragments not yet visited: each
unvisited table entry contributes its selection set's size plus one. -/
def unvisitedWeight (fragments : Fragments) (visited : List String) : Nat :=
  ((fragments.filter (fun p => !visited.contains p.1)).map
    (fun p => selsSize p.2.selectionSet + 1)).sum

/-- C8: the field `f \x7b ...H \x7d` — the inner field of the cyclic
fragment. -/
def fH2 : FieldNode := .mk none "f" [] [] (some [.fragmentSpread "H" [] []])

/-- C8: the field `f \x7b f \x7b ...H \x7d \x7d`. -/
def fH1 : FieldNode := .mk none "f" [] [] (some [.field fH2])

/-- C8: the self-referential fragment
`fragment H on T \x7b f \x7b f \x7b ...H \x7d \x7d \x7d`. -/
def fragH : FragmentDef := ⟨"H", "T", none, [.field fH1]⟩

/-- C8: a validator context whose fragment table is cyclic. -/
def c8ctx : VCtx := ⟨schemaT, [("H", fragH)]⟩

/-- C8: the document selection set
`\x7b f \x7b ...H \x7d  f \x7b f \x7b ...H \x7d \x7d \x7d`. -/
def c8doc : List Selection := [.field fH2, .field fH1]

/-- C8: the spread node `...H`. -/
def c8spread : SpreadInfo := ⟨"H", [], []⟩

/-- C8: the occurrence of `fH2` recorded under the document's parent
type. -/
def c8e2outer : NodeAndDef := ⟨some typeT, fH2, none⟩

/-- C8: the occurrence of `fH1` (as recorded both in the document's
field map and in the fragment's). -/
def c8e1 : NodeAndDef := ⟨some typeT, fH1, none⟩

/-- C8: the occurrence of `fH2` recorded with no parent type (inside
the looping sub-selection comparison). -/
def c8e2inner : NodeAndDef := ⟨none, fH2, none⟩

/-- C8: the first looping sub-selection set, `\x7b ...H \x7d`. -/
def c8X : List Selection := [.fragmentSpread "H" [] []]

/-- C8: the second looping sub-selection set, `\x7b f \x7b ...H \x7d \x7d`. -/
def c8Y : List Selection := [.field fH2]

/-- C8: the field map extracted from `c8Y`. -/
def c8mapY : NodeAndDefCollection := [("f", [c8e2inner])]

/-- C8: the field map extracted from the fragment `H`. -/
def c8mapH : NodeAndDefCollection := [("f", [c8e1])]

/-- The concrete state returned by `collectSubfields` on `c5group`
(extracted from the computation itself). -/
def c5stS : CollectSt :=
  match collectSubfields schemaT [("F", fragF)] [("x", .rbool false)] opScopeLeak
      typeT c5group 10 with
  | .ok st => st
  | .error _ => initialCollectSt

end GraphQL

namespace GraphQL

/-! ## Theorems -/

/-- `getDeferUsage` aborts with the internal invariant violation exactly
when the operation is a subscription and the node's `@defer` applies
(present, `if` not `false`). -/
theorem getDeferUsage_error_iff (op : OpType) (env : Env) (dirs : List Directive)
    (parent : Option DeferUsage) :
    getDeferUsage op env dirs parent = .error .invariantViolation ↔
      (op = .subscription ∧ deferApplicableB env dirs = true) := by
  unfold getDeferUsage deferApplicableB
  cases hd : getDirectiveValues "defer" dirs env with
  | none => simp
  | some args =>
      cases hif : rvalEqFalse (lookupArg args "if") with
      | true => simp [hif]
      | false => by_cases hop : op = .subscription <;> simp [hif, hop]

/-- A `@defer` disabled by `if: false` yields no defer usage and never
aborts. -/
theorem getDeferUsage_ok_none_of_ifFalse (op : OpType) (env : Env)
    (dirs : List Directive) (parent : Option DeferUsage) (args : List (String × RVal))
    (hd : getDirectiveValues "defer" dirs env = some args)
    (hl : lookupArg args "if" = some (.rbool false)) :
    getDeferUsage op env dirs parent = .ok none := by
  have hif : rvalEqFalse (lookupArg args "if") = true := by
    rw [hl]
    rfl
  simp only [getDeferUsage, hd, hif, if_true]

/-- A node with no `@defer` applicable yields no defer usage. -/
theorem getDeferUsage_ok_none_of_inapplicable (op : OpType) (env : Env)
    (dirs : List Directive) (parent : Option DeferUsage)
    (h : deferApplicableB env dirs = false) :
    getDeferUsage op env dirs parent = .ok none := by
  unfold deferApplicableB at h
  cases hd : getDirectiveValues "defer" dirs env with
  | none => simp only [getDeferUsage, hd]
  | some args =>
      simp only [hd, Bool.not_eq_false'] at h
      simp only [getDeferUsage, hd, h, if_true]

/-- C1.  The fragment-local scope established for a spread of `F`
($x bound to `true`) is NOT discarded when the fragment's traversal
returns: the later sibling inline fragment's field `a @include(if: $x)`
is evaluated and recorded under the fragment's leaked scope (`$x =
true`) instead of the pre-spread scope, where the operation-level
`$x = false` would exclude it.  The source mutates
`context.localVariableValues` before recursing into the fragment and
never restores it, so the sibling traversal re-reads the leaked value;
this evaluation exhibits the resulting grouped field set
`{ b, a }` with both entries carrying the fragment's scope. -/
theorem c1_fragment_scope_leak_eval :
    (collectFields schemaT [("F", fragF)] [("x", .rbool false)] typeT opScopeLeak 10).map
        (fun st => st.grouped.map (fun p => (p.1, p.2.map (fun d => d.fragmentVariableValues))))
      = .ok [("b", [some [("x", .rbool true)]]), ("a", [some [("x", .rbool true)]])] := rfl

/-- C2.  For a fragment declaring one variable `$x` (no default),
`substituteFragmentArguments` returns the seed of the
initial-value-less `reduce` — the `$x` variable-definition node itself
with no bindings — not a selection set, and leaves `$x` unbound (no
`__UNSET` marker); the helper `fragmentArgumentSubstitutions` (invoked
only from the function's unreachable dead code) is what would have
produced the claimed binding of `$x` to the `__UNSET` variable. -/
theorem c2_substitute_reduce_eval :
    substituteFragmentArguments fragF [] = .reduced ⟨"x", "Boolean", none⟩ []
    ∧ fragmentArgumentSubstitutions [⟨"x", "Boolean", none⟩] []
        = [("x", .variableV "__UNSET")]
    ∧ (match substituteFragmentArguments fragF [] with
       | .selSet _ => false
       | .reduced _ _ => true) = true :=
  ⟨rfl, rfl, rfl⟩

/-- C10 counterexample.  A subscription operation spreading an
undefined fragment name under `@defer` is not silently skipped: the
`@defer` evaluation runs before the fragment lookup and aborts with the
fatal invariant violation. -/
theorem c10_counterexample :
    collectFields schemaT [] [] typeT opMissingFragDefer 10 = .error .invariantViolation
    ∧ lookupFragment ([] : Fragments) "H" = none :=
  ⟨rfl, rfl⟩

/-- C10 amended.  Provided the spread's `@defer` evaluation itself does
not abort, a fragment spread whose name has no definition, or whose
fragment's type condition does not match the runtime type, is silently
skipped: the collection step leaves the state unchanged (no grouped
entries, no defer usage, no visited mark, no error), and an inline
fragment whose type condition does not match is skipped without even
evaluating `@defer`. -/
theorem c10_silent_skip :
    (∀ (ctx : CollectCtx) (fuel : Nat) (lv : Option Env) (deferU : Option DeferUsage)
        (fname : String) (args : List Argument) (dirs : List Directive)
        (rest : List Selection) (st : CollectSt) (nd : Option DeferUsage),
      getDeferUsage ctx.operationType (mergeEnvOpt ctx.variableValues lv) dirs deferU
          = .ok nd →
      lookupFragment ctx.fragments fname = none →
      collectFieldsImpl ctx (fuel + 1) lv deferU (.fragmentSpread fname args dirs :: rest) st
        = collectFieldsImpl ctx fuel lv deferU rest st)
    ∧ (∀ (ctx : CollectCtx) (fuel : Nat) (lv : Option Env) (deferU : Option DeferUsage)
        (fname : String) (args : List Argument) (dirs : List Directive)
        (rest : List Selection) (st : CollectSt) (nd : Option DeferUsage)
        (fragment : FragmentDef),
      getDeferUsage ctx.operationType (mergeEnvOpt ctx.variableValues lv) dirs deferU
          = .ok nd →
      lookupFragment ctx.fragments fname = some fragment →
      doesFragmentConditionMatch ctx.schema (some fragment.typeCondition) ctx.runtimeType
          = false →
      collectFieldsImpl ctx (fuel + 1) lv deferU (.fragmentSpread fname args dirs :: rest) st
        = collectFieldsImpl ctx fuel lv deferU rest st)
    ∧ (∀ (ctx : CollectCtx) (fuel : Nat) (lv : Option Env) (deferU : Option DeferUsage)
        (cond : Option String) (dirs : List Directive) (subsels : List Selection)
        (rest : List Selection) (st : CollectSt),
      doesFragmentConditionMatch ctx.schema cond ctx.runtimeType = false →
      collectFieldsImpl ctx (fuel + 1) lv deferU (.inlineFragment cond dirs subsels :: rest) st
        = collectFieldsImpl ctx fuel lv deferU rest st) := by
  refine ⟨?_, ?_, ?_⟩
  · intro ctx fuel lv deferU fname args dirs rest st nd hdef hlook
    simp only [collectFieldsImpl, hdef, hlook]
    split <;> rfl
  · intro ctx fuel lv deferU fname args dirs rest st nd fragment hdef hlook hcond
    simp only [collectFieldsImpl, hdef, hlook, hcond]
    split <;> simp [hcond]
  · intro ctx fuel lv deferU cond dirs subsels rest st hcond
    simp only [collectFieldsImpl, hcond, Bool.and_false]
    simp

/-- C10 witness: the amended theorem applied at concrete inputs — a
spread of the undefined name `H` in a query, a spread of `F` whose
condition `T` fails against runtime type `U`, and an inline fragment
conditioned on an unknown type name. -/
theorem c10_silent_skip_witness :
    (collectFieldsImpl ⟨schemaT, [], [], .query, typeT⟩ 1 none none
        [.fragmentSpread "H" [] []] initialCollectSt
      = collectFieldsImpl ⟨schemaT, [], [], .query, typeT⟩ 0 none none [] initialCollectSt)
    ∧ (collectFieldsImpl ⟨schemaT, [("F", fragF)], [], .query, ⟨"U", .objectK⟩⟩ 1 none none
        [.fragmentSpread "F" [] []] initialCollectSt
      = collectFieldsImpl ⟨schemaT, [("F", fragF)], [], .query, ⟨"U", .objectK⟩⟩ 0 none none
        [] initialCollectSt)
    ∧ (collectFieldsImpl ⟨schemaT, [], [], .query, typeT⟩ 1 none none
        [.inlineFragment (some "Nope") [] [.field fieldA]] initialCollectSt
      = collectFieldsImpl ⟨schemaT, [], [], .query, typeT⟩ 0 none none [] initialCollectSt) :=
  ⟨c10_silent_skip.1 ⟨schemaT, [], [], .query, typeT⟩ 0 none none "H" [] [] [] initialCollectSt
      none rfl rfl,
   c10_silent_skip.2.1 ⟨schemaT, [("F", fragF)], [], .query, ⟨"U", .objectK⟩⟩ 0 none none "F"
      [] [] [] initialCollectSt none fragF rfl rfl rfl,
   c10_silent_skip.2.2 ⟨schemaT, [], [], .query, typeT⟩ 0 none none (some "Nope") [] [.field fieldA]
      [] initialCollectSt rfl⟩

/-- C7.  Collection aborts with the fatal internal invariant violation
(not a user-facing diagnostic) exactly when `@defer` applies (present,
`if` not `false`) on a subscription operation: (1) `getDeferUsage`
errors iff the operation is a subscription and the defer applies;
(2) `@defer(if: false)` on a subscription raises no error and produces
no defer usage; (3) the error propagates: a collection step reaching an
included, type-matching inline fragment with applicable `@defer` in a
subscription aborts the whole traversal. -/
theorem c7_defer_subscription_invariant :
    (∀ (op : OpType) (env : Env) (dirs : List Directive) (parent : Option DeferUsage),
      getDeferUsage op env dirs parent = .error .invariantViolation ↔
        (op = .subscription ∧ deferApplicableB env dirs = true))
    ∧ (∀ (op : OpType) (env : Env) (dirs : List Directive) (parent : Option DeferUsage)
        (args : List (String × RVal)),
      getDirectiveValues "defer" dirs env = some args →
      lookupArg args "if" = some (.rbool false) →
      getDeferUsage op env dirs parent = .ok none)
    ∧ (∀ (ctx : CollectCtx) (fuel : Nat) (lv : Option Env) (deferU : Option DeferUsage)
        (cond : Option String) (dirs : List Directive) (subsels rest : List Selection)
        (st : CollectSt),
      ctx.operationType = .subscription →
      shouldIncludeNode (mergeEnvOpt ctx.variableValues lv) dirs = true →
      doesFragmentConditionMatch ctx.schema cond ctx.runtimeType = true →
      deferApplicableB ctx.variableValues dirs = true →
      collectFieldsImpl ctx (fuel + 1) lv deferU (.inlineFragment cond dirs subsels :: rest) st
        = .error .invariantViolation) := by
  refine ⟨getDeferUsage_error_iff, ?_, ?_⟩
  · intro op env dirs parent args hd hl
    exact getDeferUsage_ok_none_of_ifFalse op env dirs parent args hd hl
  · intro ctx fuel lv deferU cond dirs subsels rest st hop hinc hcond happ
    have herr : getDeferUsage ctx.operationType ctx.variableValues dirs deferU
        = .error .invariantViolation :=
      (getDeferUsage_error_iff ctx.operationType ctx.variableValues dirs deferU).2 ⟨hop, happ⟩
    simp only [collectFieldsImpl, hinc, hcond, Bool.and_self, if_true, herr]

/-- C7 witness: on a concrete subscription document, `getDeferUsage`
aborts for a bare `@defer`, accepts `@defer(if: false)`, and the abort
propagates through a collection step. -/
theorem c7_defer_subscription_invariant_witness :
    (getDeferUsage .subscription [] [deferDir] none = .error .invariantViolation)
    ∧ (getDeferUsage .subscription [] [⟨"defer", [⟨"if", .boolV false⟩]⟩] none = .ok none)
    ∧ (collectFieldsImpl ⟨schemaT, [], [], .subscription, typeT⟩ 1 none none
        [.inlineFragment none [deferDir] [.field fieldA]] initialCollectSt
      = .error .invariantViolation) :=
  ⟨(c7_defer_subscription_invariant.1 .subscription [] [deferDir] none).2 ⟨rfl, rfl⟩,
   c7_defer_subscription_invariant.2.1 .subscription [] [⟨"defer", [⟨"if", .boolV false⟩]⟩]
     none [("if", .rbool false)] rfl rfl,
   c7_defer_subscription_invariant.2.2 ⟨schemaT, [], [], .subscription, typeT⟩ 0 none none
     none [deferDir] [.field fieldA] [] initialCollectSt rfl rfl rfl rfl⟩

/-- C6 counterexample.  A fragment spread carrying `@skip(if: true)`
together with an applicable `@defer` is NOT excluded from collection:
the deferred spread bypasses the `@skip`/`@include` check entirely, so
the fragment's field `a` is collected. -/
theorem c6_counterexample :
    (collectFields schemaT [("G", fragG)] [] typeT opSkipDefer 10).map
        (fun st => groupedKeys st.grouped) = .ok ["a"]
    ∧ skipTrueB [] [skipTrueDir, deferDir] = true :=
  ⟨rfl, rfl⟩

/-- C6 amended.  `@skip(if: true)` forces `shouldIncludeNode` false
regardless of `@include`; `@include(if: false)` without a true `@skip`
forces it false; `@skip(if: false)` with `@include(if: true)` forces it
true; and a selection failing `shouldIncludeNode` is excluded from
collection when it is a field, an inline fragment, or a NON-deferred
fragment spread — a spread whose `@defer` applies bypasses the
directive gate (see the counterexample). -/
theorem c6_skip_include_precedence :
    (∀ (env : Env) (dirs : List Directive), skipTrueB env dirs = true →
      shouldIncludeNode env dirs = false)
    ∧ (∀ (env : Env) (dirs : List Directive), skipTrueB env dirs = false →
      includeFalseB env dirs = true → shouldIncludeNode env dirs = false)
    ∧ (∀ (env : Env) (dirs : List Directive), skipFalseB env dirs = true →
      includeTrueB env dirs = true → shouldIncludeNode env dirs = true)
    ∧ (∀ (ctx : CollectCtx) (fuel : Nat) (lv : Option Env) (deferU : Option DeferUsage)
        (node : FieldNode) (rest : List Selection) (st : CollectSt),
      shouldIncludeNode (mergeEnvOpt ctx.variableValues lv) node.directives = false →
      collectFieldsImpl ctx (fuel + 1) lv deferU (.field node :: rest) st
        = collectFieldsImpl ctx fuel lv deferU rest st)
    ∧ (∀ (ctx : CollectCtx) (fuel : Nat) (lv : Option Env) (deferU : Option DeferUsage)
        (cond : Option String) (dirs : List Directive) (subsels rest : List Selection)
        (st : CollectSt),
      shouldIncludeNode (mergeEnvOpt ctx.variableValues lv) dirs = false →
      collectFieldsImpl ctx (fuel + 1) lv deferU (.inlineFragment cond dirs subsels :: rest) st
        = collectFieldsImpl ctx fuel lv deferU rest st)
    ∧ (∀ (ctx : CollectCtx) (fuel : Nat) (lv : Option Env) (deferU : Option DeferUsage)
        (fname : String) (args : List Argument) (dirs : List Directive)
        (rest : List Selection) (st : CollectSt),
      getDeferUsage ctx.operationType (mergeEnvOpt ctx.variableValues lv) dirs deferU
        = .ok none →
      shouldIncludeNode (mergeEnvOpt ctx.variableValues lv) dirs = false →
      collectFieldsImpl ctx (fuel + 1) lv deferU (.fragmentSpread fname args dirs :: rest) st
        = collectFieldsImpl ctx fuel lv deferU rest st) := by
  refine ⟨?_, ?_, ?_, ?_, ?_, ?_⟩
  · intro env dirs h
    unfold skipTrueB at h
    unfold shouldIncludeNode
    cases hs : getDirectiveValues "skip" dirs env with
    | none => simp [hs] at h
    | some args =>
        simp only [hs] at h
        cases hl : lookupArg args "if" with
        | none => simp [hl] at h
        | some v =>
            simp only [hl] at h
            cases v with
            | rbool b => cases b with
              | true => simp [hl]
              | false => simp at h
            | _ => simp at h
  · intro env dirs hskip hinc
    unfold skipTrueB at hskip
    unfold includeFalseB at hinc
    unfold shouldIncludeNode shouldIncludeNodeInclude
    cases hs : getDirectiveValues "skip" dirs env with
    | none =>
        cases hi : getDirectiveValues "include" dirs env with
        | none => simp [hi] at hinc
        | some iargs =>
            simp only [hi] at hinc
            cases hl : lookupArg iargs "if" with
            | none => simp [hl] at hinc
            | some v =>
                simp only [hl] at hinc
                cases v with
                | rbool b => cases b with
                  | false => simp [hl]
                  | true => simp at hinc
                | _ => simp at hinc
    | some args =>
        simp only [hs] at hskip
        cases hl : lookupArg args "if" with
        | none =>
            simp only [hl]
            cases hi : getDirectiveValues "include" dirs env with
            | none => simp [hi] at hinc
            | some iargs =>
                simp only [hi] at hinc
                cases hl2 : lookupArg iargs "if" with
                | none => simp [hl2] at hinc
                | some v =>
                    simp only [hl2] at hinc
                    cases v with
                    | rbool b => cases b with
                      | false => simp [hl2]
                      | true => simp at hinc
                    | _ => simp at hinc
        | some v =>
            simp only [hl] at hskip
            have hv : ¬(v = .rbool true) := by
              intro hveq; subst hveq; simp at hskip
            simp only [hl]
            cases hi : getDirectiveValues "include" dirs env with
            | none => simp [hi] at hinc
            | some iargs =>
                simp only [hi] at hinc
                cases hl2 : lookupArg iargs "if" with
                | none => simp [hl2] at hinc
                | some w =>
                    simp only [hl2] at hinc
                    cases w with
                    | rbool b => cases b with
                      | false =>
                          cases v with
                          | rbool b2 => cases b2 with
                            | true => exact absurd rfl hv
                            | false => simp [hl2]
                          | _ => simp [hl2]
                      | true => simp at hinc
                    | _ => simp at hinc
  · intro env dirs hskip hinc
    unfold skipFalseB at hskip
    unfold includeTrueB at hinc
    unfold shouldIncludeNode shouldIncludeNodeInclude
    cases hs : getDirectiveValues "skip" dirs env with
    | none => simp [hs] at hskip
    | some args =>
        simp only [hs] at hskip
        cases hl : lookupArg args "if" with
        | none => simp [hl] at hskip
        | some v =>
            simp only [hl] at hskip
            cases v with
            | rbool b =>
                cases b with
                | true => simp at hskip
                | false =>
                    simp only [hl]
                    cases hi : getDirectiveValues "include" dirs env with
                    | none => simp [hi] at hinc
                    | some iargs =>
                        simp only [hi] at hinc
                        cases hl2 : lookupArg iargs "if" with
                        | none => simp [hl2] at hinc
                        | some w =>
                            simp only [hl2] at hinc
                            cases w with
                            | rbool b2 => cases b2 with
                              | true => simp [hl2]
                              | false => simp at hinc
                            | _ => simp at hinc
            | _ => simp at hskip
  · intro ctx fuel lv deferU node rest st h
    simp only [collectFieldsImpl, h]
    simp
  · intro ctx fuel lv deferU cond dirs subsels rest st h
    simp only [collectFieldsImpl, h, Bool.false_and]
    simp
  · intro ctx fuel lv deferU fname args dirs rest st hdef h
    simp only [collectFieldsImpl, hdef, h]
    simp

/-- C6 witness: the amended theorem applied at concrete directive lists
and a concrete collection step for each clause. -/
theorem c6_skip_include_precedence_witness :
    (shouldIncludeNode [] [skipTrueDir, ⟨"include", [⟨"if", .boolV true⟩]⟩] = false)
    ∧ (shouldIncludeNode [] [⟨"skip", [⟨"if", .boolV false⟩]⟩,
        ⟨"include", [⟨"if", .boolV false⟩]⟩] = false)
    ∧ (shouldIncludeNode [] [⟨"skip", [⟨"if", .boolV false⟩]⟩,
        ⟨"include", [⟨"if", .boolV true⟩]⟩] = true)
    ∧ (collectFieldsImpl ⟨schemaT, [], [], .query, typeT⟩ 1 none none
        [.field (.mk none "a" [] [skipTrueDir] none)] initialCollectSt
      = collectFieldsImpl ⟨schemaT, [], [], .query, typeT⟩ 0 none none [] initialCollectSt)
    ∧ (collectFieldsImpl ⟨schemaT, [], [], .query, typeT⟩ 1 none none
        [.inlineFragment none [skipTrueDir] [.field fieldA]] initialCollectSt
      = collectFieldsImpl ⟨schemaT, [], [], .query, typeT⟩ 0 none none [] initialCollectSt)
    ∧ (collectFieldsImpl ⟨schemaT, [("G", fragG)], [], .query, typeT⟩ 1 none none
        [.fragmentSpread "G" [] [skipTrueDir]] initialCollectSt
      = collectFieldsImpl ⟨schemaT, [("G", fragG)], [], .query, typeT⟩ 0 none none
        [] initialCollectSt) :=
  ⟨c6_skip_include_precedence.1 [] [skipTrueDir, ⟨"include", [⟨"if", .boolV true⟩]⟩] rfl,
   c6_skip_include_precedence.2.1 [] [⟨"skip", [⟨"if", .boolV false⟩]⟩,
      ⟨"include", [⟨"if", .boolV false⟩]⟩] rfl rfl,
   c6_skip_include_precedence.2.2.1 [] [⟨"skip", [⟨"if", .boolV false⟩]⟩,
      ⟨"include", [⟨"if", .boolV true⟩]⟩] rfl rfl,
   c6_skip_include_precedence.2.2.2.1 ⟨schemaT, [], [], .query, typeT⟩ 0 none none
      (.mk none "a" [] [skipTrueDir] none) [] initialCollectSt rfl,
   c6_skip_include_precedence.2.2.2.2.1 ⟨schemaT, [], [], .query, typeT⟩ 0 none none
      none [skipTrueDir] [.field fieldA] [] initialCollectSt rfl,
   c6_skip_include_precedence.2.2.2.2.2 ⟨schemaT, [("G", fragG)], [], .query, typeT⟩ 0 none
      none "G" [] [skipTrueDir] [] initialCollectSt rfl rfl⟩

/-- C4.  Comparing two spreads that reference the same fragment name
under different spread keys, with the pair not yet in the cache,
records exactly one `FRAGMENT_SPREAD` conflict carrying the fragment
name and the differing-fragment-arguments message, marks the pair
compared, and does not recurse into the fragment's fields (the result
is this pure value). -/
theorem c4_same_fragment_different_args :
    ∀ (ctx : VCtx) (fuel : Nat) (areMutuallyExclusive : Bool) (s1 s2 : SpreadInfo)
      (st : VSt),
      s1.name = s2.name →
      keyForFragmentSpread s1 ≠ keyForFragmentSpread s2 →
      st.2.has (keyForFragmentSpread s1) (keyForFragmentSpread s2) areMutuallyExclusive
        = false →
      collectConflictsBetweenFragments ctx (fuel + 1) areMutuallyExclusive s1 s2 st
        = .ok (st.1 ++ [⟨.fragmentSpreadR s1.name
            (.flat (keyForFragmentSpread s1 ++ " and " ++ keyForFragmentSpread s2
              ++ " have different fragment arguments")),
            [.spreadP s1], [.spreadP s2]⟩],
          st.2.add (keyForFragmentSpread s1) (keyForFragmentSpread s2)
            areMutuallyExclusive) := by
  intro ctx fuel areMutuallyExclusive s1 s2 st hname hkey hhas
  have h1 : (keyForFragmentSpread s1 == keyForFragmentSpread s2) = false :=
    beq_eq_false_iff_ne.mpr hkey
  have h2 : (s1.name == s2.name) = true := beq_iff_eq.mpr hname
  simp only [collectConflictsBetweenFragments, h1, hhas, h2, Bool.false_eq_true,
    if_false, if_true]

/-- C4 witness: `...F(x: 1)` against `...F(x: 2)` from the empty cache
records the one direct conflict. -/
theorem c4_same_fragment_different_args_witness :
    collectConflictsBetweenFragments ⟨petSchema, []⟩ 1 false spreadFx1 spreadFx2
        ([], PairSet.empty)
      = .ok ([⟨.fragmentSpreadR "F"
          (.flat "F(x: 1) and F(x: 2) have different fragment arguments"),
          [.spreadP spreadFx1], [.spreadP spreadFx2]⟩],
        PairSet.empty.add "F(x: 1)" "F(x: 2)" false) := by
  have h := c4_same_fragment_different_args ⟨petSchema, []⟩ 0 false spreadFx1 spreadFx2
    ([], PairSet.empty) rfl (by decide) rfl
  exact h.trans (by rfl)

/-- C3 counterexample.  A field `x: Int` on concrete type `Dog` and a
same-response-key field `x: String` on concrete type `Cat`, each
reachable only through its own type-narrowing inline fragment under an
interface-typed (`Pet`) parent, DO produce a conflict: the validator
reports "they return conflicting types" even though the recorded parent
types are distinct concrete object types (the return-type check runs
regardless of mutual exclusivity). -/
theorem c3_counterexample :
    findConflictsWithinSelectionSet ⟨petSchema, []⟩ 20 (some petT) dogCatSS PairSet.empty
      = .ok ([⟨.fieldR "x" (.flat "they return conflicting types \"Int\" and \"String\""),
          [.fieldP fieldX], [.fieldP fieldX]⟩], PairSet.empty) := rfl

/-- C3 amended.  When mutual exclusivity holds for a pairwise field
comparison (propagated from the parents, or the two recorded parent
types are distinct concrete object types), no conflict is reported for
differing field names or differing arguments — any conflict the
comparison reports is a differing-stream conflict, a conflicting
return-type conflict (which exclusivity does NOT suppress), or a folded
nested sub-selection conflict. -/
theorem c3_exclusivity_suppresses_name_and_args :
    ∀ (ctx : VCtx) (fuel : Nat) (pmx : Bool) (responseName : String)
      (field1 field2 : NodeAndDef) (pairs : PairSet)
      (r : Option Conflict × PairSet) (c : Conflict),
      (pmx || (decide (field1.parentType ≠ field2.parentType)
        && isObjectTypeB field1.parentType && isObjectTypeB field2.parentType)) = true →
      findFieldConflicts ctx (fuel + 1) pmx responseName field1 field2 pairs = .ok r →
      r.1 = some c →
      c.reason = .fieldR responseName (.flat "they have differing stream directives")
      ∨ (∃ t1 t2, field1.fieldDef = some t1 ∧ field2.fieldDef = some t2 ∧
          doTypesConflict t1 t2 = true ∧
          c.reason = .fieldR responseName (.flat ("they return conflicting types \""
            ++ printOutType t1 ++ "\" and \"" ++ printOutType t2 ++ "\"")))
      ∨ (∃ reasons, c.reason = .fieldR responseName (.nested reasons)) := by
  intro ctx fuel pmx responseName field1 field2 pairs r c hmx heq hc
  simp only [findFieldConflicts, hmx, Bool.not_true, Bool.false_and,
    Bool.false_eq_true, if_false] at heq
  cases hss : sameStreams field1.node.directives field2.node.directives with
  | false =>
      rw [hss] at heq
      simp only [Bool.not_false, if_true, Except.ok.injEq] at heq
      subst heq
      simp only [Option.some.injEq] at hc
      subst hc
      exact Or.inl rfl
  | true =>
      rw [hss] at heq
      simp only [Bool.not_true, Bool.false_eq_true, if_false] at heq
      cases hty : (match field1.fieldDef, field2.fieldDef with
                   | some t1, some t2 =>
                       if doTypesConflict t1 t2 then some (t1, t2) else none
                   | _, _ => none) with
      | some tp =>
          rw [hty] at heq
          simp only [Except.ok.injEq] at heq
          subst heq
          simp only [Option.some.injEq] at hc
          subst hc
          refine Or.inr (Or.inl ?_)
          cases hd1 : field1.fieldDef with
          | none => rw [hd1] at hty; simp at hty
          | some t1 =>
              cases hd2 : field2.fieldDef with
              | none => rw [hd1, hd2] at hty; simp at hty
              | some t2 =>
                  rw [hd1, hd2] at hty
                  cases htc : doTypesConflict t1 t2 with
                  | false =>
                      simp only [htc, Bool.false_eq_true, if_false] at hty
                      simp at hty
                  | true =>
                      simp only [htc, if_true, Option.some.injEq] at hty
                      subst hty
                      exact ⟨t1, t2, rfl, rfl, htc, rfl⟩
      | none =>
          rw [hty] at heq
          cases hss1 : field1.node.selectionSet with
          | none =>
              rw [hss1] at heq
              simp only [Except.ok.injEq] at heq
              subst heq
              simp at hc
          | some selectionSet1 =>
              cases hss2 : field2.node.selectionSet with
              | none =>
                  rw [hss1, hss2] at heq
                  simp only [Except.ok.injEq] at heq
                  subst heq
                  simp at hc
              | some selectionSet2 =>
                  rw [hss1, hss2] at heq
                  cases hrec : findConflictsBetweenSubSelectionSets ctx fuel true
                      (field1.fieldDef.map getNamedType) selectionSet1
                      (field2.fieldDef.map getNamedType) selectionSet2 pairs with
                  | error e =>
                      simp [hrec, bind, Except.bind] at heq
                  | ok rr =>
                      simp [hrec, bind, Except.bind] at heq
                      have hr1 : r.1 = subfieldConflicts rr.1 responseName
                          field1.node field2.node := by
                        rw [← heq]
                      rw [hr1] at hc
                      unfold subfieldConflicts at hc
                      by_cases hlen : rr.1.length > 0
                      · rw [if_pos hlen] at hc
                        simp only [Option.some.injEq] at hc
                        subst hc
                        exact Or.inr (Or.inr ⟨rr.1.map (fun cc => cc.reason), rfl⟩)
                      · rw [if_neg hlen] at hc
                        simp at hc

/-- C3 witness: the amended theorem applied to the `Dog.x : Int` /
`Cat.x : String` comparison (distinct concrete object parents, so
mutual exclusivity holds), whose reported conflict is the return-type
one. -/
theorem c3_exclusivity_suppresses_name_and_args_witness :
    dogCatTypesConflict.reason
      = .fieldR "x" (.flat "they have differing stream directives")
    ∨ (∃ t1 t2, dogFieldX.fieldDef = some t1 ∧ catFieldX.fieldDef = some t2 ∧
        doTypesConflict t1 t2 = true ∧
        dogCatTypesConflict.reason = .fieldR "x" (.flat ("they return conflicting types \""
          ++ printOutType t1 ++ "\" and \"" ++ printOutType t2 ++ "\"")))
    ∨ (∃ reasons, dogCatTypesConflict.reason = .fieldR "x" (.nested reasons)) :=
  c3_exclusivity_suppresses_name_and_args ⟨petSchema, []⟩ 0 false "x" dogFieldX catFieldX
    PairSet.empty (some dogCatTypesConflict, PairSet.empty) dogCatTypesConflict
    rfl rfl rfl

/-- `find?` by key over a key-preserving value replacement. -/
theorem find_key_map_set {α : Type} (m : List (String × α)) (k k' : String) (v : α) :
    (m.map (fun p => if p.1 == k then (p.1, v) else p)).find? (fun p => p.1 == k')
      = (m.find? (fun p => p.1 == k')).map
          (fun p => if p.1 == k then (p.1, v) else p) := by
  induction m with
  | nil => rfl
  | cons x xs ih =>
      cases hxk : x.1 == k with
      | true =>
          cases hxk' : x.1 == k' with
          | true =>
              simp only [List.map_cons, hxk, if_true, List.find?_cons, hxk', ih,
                Option.map_some']
          | false =>
              simp only [List.map_cons, hxk, if_true, List.find?_cons, hxk', ih]
      | false =>
          cases hxk' : x.1 == k' with
          | true =>
              simp only [List.map_cons, hxk, Bool.false_eq_true, if_false,
                List.find?_cons, hxk', ih, Option.map_some']
          | false =>
              simp only [List.map_cons, hxk, Bool.false_eq_true, if_false,
                List.find?_cons, hxk', ih]

/-- `find?` by key over an appended single entry. -/
theorem find_key_append_single {α : Type} (m : List (String × α)) (k k' : String)
    (v : α) :
    (m ++ [(k, v)]).find? (fun p => p.1 == k')
      = match m.find? (fun p => p.1 == k') with
        | some z => some z
        | none => if k == k' then some (k, v) else none := by
  induction m with
  | nil =>
      cases hk : (k : String) == k' with
      | true => simp only [List.nil_append, List.find?_cons, hk, List.find?_nil, if_true]
      | false =>
          simp only [List.nil_append, List.find?_cons, hk, List.find?_nil,
            Bool.false_eq_true, if_false]
  | cons x xs ih =>
      cases hxk' : x.1 == k' with
      | true => simp only [List.cons_append, List.find?_cons, hxk']
      | false => simp only [List.cons_append, List.find?_cons, hxk', ih]

/-- `any` by key agrees with `find?` by key. -/
theorem any_key_eq_isSome_find {α : Type} (m : List (String × α)) (k : String) :
    m.any (fun p => p.1 == k) = (m.find? (fun p => p.1 == k)).isSome := by
  induction m with
  | nil => rfl
  | cons x xs ih =>
      cases hxk : x.1 == k with
      | true => simp only [List.any_cons, hxk, Bool.true_or, List.find?_cons,
          Option.isSome_some]
      | false => simp only [List.any_cons, hxk, Bool.false_or, List.find?_cons, ih]

/-- Setting a key makes it retrievable. -/
theorem assocGet_set_same {α : Type} (m : List (String × α)) (k : String) (v : α) :
    assocGet (assocSet m k v) k = some v := by
  unfold assocSet assocGet
  rw [any_key_eq_isSome_find]
  cases hz : m.find? (fun p => p.1 == k) with
  | some z =>
      have hzk : (z.1 == k) = true := by
        have h := List.find?_some hz
        exact h
      simp only [hz, Option.isSome_some, if_true, find_key_map_set, Option.map_some',
        hzk]
  | none =>
      simp only [hz, Option.isSome_none, Bool.false_eq_true, if_false,
        find_key_append_single, beq_self_eq_true, if_true, Option.map_some']

/-- Setting one key does not change another key's lookup. -/
theorem assocGet_set_ne {α : Type} (m : List (String × α)) (k k' : String) (v : α)
    (hne : k' ≠ k) :
    assocGet (assocSet m k v) k' = assocGet m k' := by
  unfold assocSet assocGet
  rw [any_key_eq_isSome_find]
  cases hz : m.find? (fun p => p.1 == k) with
  | some z =>
      cases hz' : m.find? (fun p => p.1 == k') with
      | none =>
          simp only [hz, Option.isSome_some, if_true, find_key_map_set, hz',
            Option.map_none']
      | some z2 =>
          have hk2 : (z2.1 == k') = true := by
            have h := List.find?_some hz'
            exact h
          have hk1 : (z2.1 == k) = false := by
            rw [beq_eq_false_iff_ne]
            rw [beq_iff_eq] at hk2
            rw [hk2]
            exact hne
          simp only [hz, Option.isSome_some, if_true, find_key_map_set, hz',
            Option.map_some', hk1, Bool.false_eq_true, if_false]
  | none =>
      simp only [hz, Option.isSome_none, Bool.false_eq_true, if_false,
        find_key_append_single]
      cases hz' : m.find? (fun p => p.1 == k') with
      | none =>
          have hk : ((k : String) == k') = false := by
            rw [beq_eq_false_iff_ne]
            exact fun hkk => hne hkk.symm
          simp only [hk, Bool.false_eq_true, if_false, Option.map_none']
      | some z' => simp only [Option.map_some']

/-- The key normalization is symmetric in its two arguments. -/
theorem pairKeys_symm (a b : String) : pairKeys a b = pairKeys b a := by
  unfold pairKeys
  rcases lt_trichotomy a b with h | h | h
  · rw [if_pos h, if_neg (lt_asymm h)]
  · subst h
    rfl
  · rw [if_neg (lt_asymm h), if_pos h]

/-- After `add`, the normalized pair is retrievable with the recorded
flag. -/
theorem pairSet_get_add (ps : PairSet) (a b : String) (m : Bool) :
    (ps.add a b m).get (pairKeys a b).1 (pairKeys a b).2 = some m := by
  unfold PairSet.add PairSet.get
  cases houter : assocGet ps.data (pairKeys a b).1 with
  | none =>
      have hfindnone : ps.data.find? (fun p => p.1 == (pairKeys a b).1) = none := by
        unfold assocGet at houter
        exact Option.map_eq_none.mp houter
      simp only [houter]
      unfold assocGet
      rw [find_key_append_single, hfindnone]
      simp
  | some inner =>
      simp only [houter]
      rw [assocGet_set_same]
      simp only [Option.some.injEq]
      exact assocGet_set_same inner (pairKeys a b).2 m

/-- `add` leaves every other normalized pair's lookup unchanged. -/
theorem pairSet_get_add_other (ps : PairSet) (a b : String) (m : Bool)
    (k1 k2 : String) (hne : (k1, k2) ≠ pairKeys a b) :
    (ps.add a b m).get k1 k2 = ps.get k1 k2 := by
  unfold PairSet.add PairSet.get
  by_cases h1 : k1 = (pairKeys a b).1
  · have h2 : k2 ≠ (pairKeys a b).2 := by
      intro h2
      exact hne (by rw [h1, h2])
    cases houter : assocGet ps.data (pairKeys a b).1 with
    | none =>
        have hfindnone : ps.data.find? (fun p => p.1 == (pairKeys a b).1) = none := by
          unfold assocGet at houter
          exact Option.map_eq_none.mp houter
        have hfindnone1 : ps.data.find? (fun p => p.1 == k1) = none := by
          rw [h1]
          exact hfindnone
        have houter1 : assocGet ps.data k1 = none := by
          unfold assocGet
          rw [hfindnone1]
          rfl
        simp only [houter, houter1]
        unfold assocGet
        rw [find_key_append_single, hfindnone1]
        have hk : (((pairKeys a b).1 : String) == k1) = true := by
          rw [beq_iff_eq, h1]
        have hk2 : (((pairKeys a b).2 : String) == k2) = false := by
          rw [beq_eq_false_iff_ne]
          exact fun hkk => h2 hkk.symm
        simp [hk, List.find?_cons, hk2]
    | some inner =>
        have houter1 : assocGet ps.data k1 = some inner := by
          rw [h1]
          exact houter
        simp only [houter, houter1]
        rw [h1, assocGet_set_same]
        exact assocGet_set_ne inner (pairKeys a b).2 k2 m h2
  · cases houter : assocGet ps.data (pairKeys a b).1 with
    | none =>
        have hfindnone : ps.data.find? (fun p => p.1 == (pairKeys a b).1) = none := by
          unfold assocGet at houter
          exact Option.map_eq_none.mp houter
        simp only [houter]
        unfold assocGet
        rw [find_key_append_single]
        have hk : (((pairKeys a b).1 : String) == k1) = false := by
          rw [beq_eq_false_iff_ne]
          exact fun hkk => h1 hkk.symm
        cases hz : ps.data.find? (fun p => p.1 == k1) with
        | none => simp [hk]
        | some z => simp
    | some inner =>
        simp only [houter]
        rw [assocGet_set_ne ps.data (pairKeys a b).1 k1 _ h1]

/-- The effect of one `add` on a later `has` query with flag `false`. -/
theorem pairSet_has_false_add (ps : PairSet) (x y : String) (v : Bool)
    (a b : String) :
    (ps.add x y v).has a b false
      = if pairKeys x y = pairKeys a b then (false == v) else ps.has a b false := by
  simp only [PairSet.has]
  by_cases hk : pairKeys x y = pairKeys a b
  · rw [if_pos hk]
    have hget := pairSet_get_add ps x y v
    rw [hk] at hget
    rw [hget]
    simp
  · rw [if_neg hk]
    have hne : ((pairKeys a b).1, (pairKeys a b).2) ≠ pairKeys x y := by
      intro h
      exact hk (h.symm.trans Prod.mk.eta)
    rw [pairSet_get_add_other ps x y v _ _ hne]

/-- C9.  The memoized pair set is symmetric in its two keys; a pair
just added answers a query under the same flag; a pair added without
mutual exclusivity (flag `false`) also answers a query that assumes it
(flag `true`); and after any sequence of adds in which the pair was
only ever added with flag `true`, a flag-`false` query still fails —
exclusivity is recorded per pair, not globally. -/
theorem c9_pair_set_memoization :
    (∀ (ps : PairSet) (a b : String) (m : Bool), ps.has a b m = ps.has b a m)
    ∧ (∀ (ps : PairSet) (a b : String) (m : Bool), (ps.add a b m).has a b m = true)
    ∧ (∀ (ps : PairSet) (a b : String), (ps.add a b false).has a b true = true)
    ∧ (∀ (adds : List (String × String × Bool)) (a b : String),
        (∀ x ∈ adds, pairKeys x.1 x.2.1 = pairKeys a b → x.2.2 = true) →
        (adds.foldl (fun ps x => ps.add x.1 x.2.1 x.2.2) PairSet.empty).has a b false
          = false) := by
  refine ⟨?_, ?_, ?_, ?_⟩
  · intro ps a b m
    simp only [PairSet.has]
    rw [pairKeys_symm]
  · intro ps a b m
    simp only [PairSet.has]
    rw [pairSet_get_add]
    cases m <;> simp
  · intro ps a b
    simp only [PairSet.has]
    rw [pairSet_get_add]
    simp
  · intro adds a b h
    have key : ∀ (l : List (String × String × Bool)) (ps : PairSet),
        (∀ x ∈ l, pairKeys x.1 x.2.1 = pairKeys a b → x.2.2 = true) →
        ps.has a b false = false →
        (l.foldl (fun ps x => ps.add x.1 x.2.1 x.2.2) ps).has a b false = false := by
      intro l
      induction l with
      | nil =>
          intro ps _ hps
          exact hps
      | cons x xs ih =>
          intro ps hall hps
          simp only [List.foldl_cons]
          apply ih
          · intro y hy hky
            exact hall y (List.mem_cons_of_mem x hy) hky
          · rw [pairSet_has_false_add]
            by_cases hk : pairKeys x.1 x.2.1 = pairKeys a b
            · rw [if_pos hk, hall x (List.mem_cons_self x xs) hk]
              rfl
            · rw [if_neg hk]
              exact hps
    exact key adds PairSet.empty h rfl

/-- C9 witness: the four clauses at concrete keys. -/
theorem c9_pair_set_memoization_witness :
    (PairSet.empty.has "a" "c" false = PairSet.empty.has "c" "a" false)
    ∧ ((PairSet.empty.add "a" "c" true).has "a" "c" true = true)
    ∧ ((PairSet.empty.add "a" "c" false).has "a" "c" true = true)
    ∧ (([("a", "c", true)].foldl (fun ps x => ps.add x.1 x.2.1 x.2.2)
        PairSet.empty).has "a" "c" false = false) :=
  ⟨c9_pair_set_memoization.1 PairSet.empty "a" "c" false,
   c9_pair_set_memoization.2.1 PairSet.empty "a" "c" true,
   c9_pair_set_memoization.2.2.1 PairSet.empty "a" "c",
   c9_pair_set_memoization.2.2.2 [("a", "c", true)] "a" "c" (by
     intro x hx hk
     rw [List.mem_singleton] at hx
     rw [hx])⟩

/-- The accumulator's key list grows by first-encounter insertion. -/
theorem groupedKeys_add (m : GroupedFieldSet) (k : String) (v : FieldDetails) :
    groupedKeys (AccumulatorMap.add m k v) = addKeyOnce (groupedKeys m) k := by
  unfold AccumulatorMap.add addKeyOnce groupedKeys
  have hany : ((m.map (fun p => p.1)).any (fun x => x == k))
      = m.any (fun p => p.1 == k) := by
    induction m with
    | nil => rfl
    | cons x xs ih => simp only [List.map_cons, List.any_cons, ih]
  rw [hany]
  by_cases h : m.any (fun p => p.1 == k)
  · simp only [h, if_true]
    rw [List.map_map]
    apply List.map_congr_left
    intro p _
    by_cases hp : p.1 = k
    · simp [Function.comp, hp]
    · simp [Function.comp, hp]
  · simp only [h, Bool.false_eq_true, if_false, List.map_append, List.map_cons,
      List.map_nil]

/-- The shape of `getDeferUsage` (error / no-defer / defer) does not
depend on the parent defer usage, which only seeds the payload. -/
theorem getDeferUsage_parent_shape (op : OpType) (env : Env) (dirs : List Directive)
    (p1 p2 : Option DeferUsage) :
    (∀ e, getDeferUsage op env dirs p1 = .error e →
      getDeferUsage op env dirs p2 = .error e)
    ∧ (getDeferUsage op env dirs p1 = .ok none → getDeferUsage op env dirs p2 = .ok none)
    ∧ (∀ d, getDeferUsage op env dirs p1 = .ok (some d) →
        ∃ d', getDeferUsage op env dirs p2 = .ok (some d')) := by
  cases hd : getDirectiveValues "defer" dirs env with
  | none =>
      have e1 : getDeferUsage op env dirs p1 = .ok none := by
        simp only [getDeferUsage, hd]
      have e2 : getDeferUsage op env dirs p2 = .ok none := by
        simp only [getDeferUsage, hd]
      rw [e1, e2]
      exact ⟨fun e h => by simp at h, fun _ => rfl, fun d h => by simp at h⟩
  | some args =>
      cases hif : rvalEqFalse (lookupArg args "if") with
      | true =>
          have e1 : getDeferUsage op env dirs p1 = .ok none := by
            simp only [getDeferUsage, hd, hif, if_true]
          have e2 : getDeferUsage op env dirs p2 = .ok none := by
            simp only [getDeferUsage, hd, hif, if_true]
          rw [e1, e2]
          exact ⟨fun e h => by simp at h, fun _ => rfl, fun d h => by simp at h⟩
      | false =>
          by_cases hop : op = .subscription
          · have e1 : getDeferUsage op env dirs p1 = .error .invariantViolation := by
              simp only [getDeferUsage, hd, hif, Bool.false_eq_true, if_false, hop,
                if_true]
            have e2 : getDeferUsage op env dirs p2 = .error .invariantViolation := by
              simp only [getDeferUsage, hd, hif, Bool.false_eq_true, if_false, hop,
                if_true]
            rw [e1, e2]
            exact ⟨fun e h => h, fun h => by simp at h, fun d h => by simp at h⟩
          · have e1 : getDeferUsage op env dirs p1 = .ok (some (.mk
                (match lookupArg args "label" with
                 | some (.rstr str) => some str
                 | _ => none) p1)) := by
              simp only [getDeferUsage, hd, hif, Bool.false_eq_true, if_false, hop]
            have e2 : getDeferUsage op env dirs p2 = .ok (some (.mk
                (match lookupArg args "label" with
                 | some (.rstr str) => some str
                 | _ => none) p2)) := by
              simp only [getDeferUsage, hd, hif, Bool.false_eq_true, if_false, hop]
            rw [e1, e2]
            exact ⟨fun e h => by simp at h, fun h => by simp at h, fun d h => ⟨_, rfl⟩⟩

/-- The collector refines the spec traversal: a successful collection
pass is mirrored by the spec's key trace from the same traversal state,
and the accumulator's key list evolves by first-encounter insertion of
exactly the traced keys. -/
theorem collect_trace_rel (fuel : Nat) :
    ∀ (ctx : CollectCtx) (lv : Option Env) (deferU : Option DeferUsage)
      (sels : List Selection) (st st' : CollectSt),
      collectFieldsImpl ctx fuel lv deferU sels st = .ok st' →
      ∃ ks, specKeyTrace ctx fuel lv sels
            ⟨st.visitedFragmentNames, st.localVariableValues⟩
          = .ok (⟨st'.visitedFragmentNames, st'.localVariableValues⟩, ks)
        ∧ groupedKeys st'.grouped = ks.foldl addKeyOnce (groupedKeys st.grouped) := by
  induction fuel with
  | zero =>
      intro ctx lv deferU sels st st' h
      simp [collectFieldsImpl] at h
  | succ fuel ih =>
      intro ctx lv deferU sels st st' h
      cases sels with
      | nil =>
          simp only [collectFieldsImpl, Except.ok.injEq] at h
          subst h
          exact ⟨[], rfl, rfl⟩
      | cons sel rest =>
          cases sel with
          | field node =>
              simp only [collectFieldsImpl] at h
              by_cases hinc : shouldIncludeNode (mergeEnvOpt ctx.variableValues lv)
                  node.directives = true
              · rw [if_pos hinc] at h
                obtain ⟨ks, htr, hkeys⟩ := ih ctx lv deferU rest _ st' h
                refine ⟨getFieldEntryKey node :: ks, ?_, ?_⟩
                · simp only [specKeyTrace, hinc, if_true, htr]
                · rw [hkeys, List.foldl_cons, groupedKeys_add]
              · rw [if_neg hinc] at h
                obtain ⟨ks, htr, hkeys⟩ := ih ctx lv deferU rest st st' h
                refine ⟨ks, ?_, hkeys⟩
                simp only [specKeyTrace, if_neg hinc, htr]
          | inlineFragment typeCondition directives subSelections =>
              simp only [collectFieldsImpl] at h
              by_cases hcond : (shouldIncludeNode (mergeEnvOpt ctx.variableValues lv)
                  directives
                  && doesFragmentConditionMatch ctx.schema typeCondition
                    ctx.runtimeType) = true
              · rw [if_pos hcond] at h
                split at h
                · next e heq =>
                    simp at h
                · next heq =>
                    simp only [bind, Except.bind] at h
                    cases hsub : collectFieldsImpl ctx fuel st.localVariableValues
                        deferU subSelections st with
                    | error e =>
                        rw [hsub] at h
                        simp at h
                    | ok st1 =>
                        rw [hsub] at h
                        obtain ⟨ks1, htr1, hkeys1⟩ :=
                          ih ctx st.localVariableValues deferU subSelections st st1 hsub
                        obtain ⟨ks2, htr2, hkeys2⟩ := ih ctx lv deferU rest st1 st' h
                        have htr0 : getDeferUsage ctx.operationType
                            ctx.variableValues directives none = .ok none :=
                          (getDeferUsage_parent_shape ctx.operationType
                            ctx.variableValues directives deferU none).2.1 heq
                        refine ⟨ks1 ++ ks2, ?_, ?_⟩
                        · simp only [specKeyTrace, hcond, if_true, htr0, htr1, htr2]
                        · rw [hkeys2, hkeys1, List.foldl_append]
                · next d heq =>
                    simp only [bind, Except.bind] at h
                    cases hsub : collectFieldsImpl ctx fuel st.localVariableValues
                        (some d) subSelections
                        { st with newDeferUsages := st.newDeferUsages ++ [d] } with
                    | error e =>
                        rw [hsub] at h
                        simp at h
                    | ok st1 =>
                        rw [hsub] at h
                        obtain ⟨ks1, htr1, hkeys1⟩ :=
                          ih ctx st.localVariableValues (some d) subSelections
                            { st with newDeferUsages := st.newDeferUsages ++ [d] }
                            st1 hsub
                        obtain ⟨ks2, htr2, hkeys2⟩ := ih ctx lv deferU rest st1 st' h
                        obtain ⟨d', htr0⟩ :=
                          (getDeferUsage_parent_shape ctx.operationType
                            ctx.variableValues directives deferU none).2.2 d heq
                        refine ⟨ks1 ++ ks2, ?_, ?_⟩
                        · simp only [specKeyTrace, hcond, if_true, htr0, htr1, htr2]
                        · rw [hkeys2, hkeys1, List.foldl_append]
              · rw [if_neg hcond] at h
                obtain ⟨ks, htr, hkeys⟩ := ih ctx lv deferU rest st st' h
                refine ⟨ks, ?_, hkeys⟩
                simp only [specKeyTrace, if_neg hcond, htr]
          | fragmentSpread fragmentName spreadArgs directives =>
              simp only [collectFieldsImpl] at h
              split at h
              · next e heq =>
                  simp at h
              · next nd heq =>
                  cases nd with
                  | none =>
                      have htr0 : getDeferUsage ctx.operationType
                          (mergeEnvOpt ctx.variableValues lv) directives none
                          = .ok none :=
                        (getDeferUsage_parent_shape ctx.operationType
                          (mergeEnvOpt ctx.variableValues lv) directives deferU
                          none).2.1 heq
                      simp only [Option.isNone_none, Bool.true_and] at h
                      by_cases hskip : (st.visitedFragmentNames.contains fragmentName
                          || !shouldIncludeNode (mergeEnvOpt ctx.variableValues lv)
                            directives) = true
                      · rw [if_pos hskip] at h
                        obtain ⟨ks, htr, hkeys⟩ := ih ctx lv deferU rest st st' h
                        refine ⟨ks, ?_, hkeys⟩
                        simp only [specKeyTrace, htr0, Option.isNone_none,
                          Bool.true_and, hskip, if_true, htr]
                      · rw [if_neg hskip] at h
                        rw [Bool.not_eq_true] at hskip
                        split at h
                        · next hlook =>
                            obtain ⟨ks, htr, hkeys⟩ := ih ctx lv deferU rest st st' h
                            refine ⟨ks, ?_, hkeys⟩
                            simp only [specKeyTrace, htr0, Option.isNone_none,
                              Bool.true_and, hskip, Bool.false_eq_true, if_false,
                              hlook, htr]
                        · next fragment hlook =>
                            cases hcond2 : doesFragmentConditionMatch ctx.schema
                                (some fragment.typeCondition) ctx.runtimeType with
                            | false =>
                                rw [hcond2] at h
                                simp only [Bool.not_false, if_true] at h
                                obtain ⟨ks, htr, hkeys⟩ := ih ctx lv deferU rest st st' h
                                refine ⟨ks, ?_, hkeys⟩
                                simp only [specKeyTrace, htr0, Option.isNone_none,
                                  Bool.true_and, hskip, Bool.false_eq_true, if_false,
                                  hlook, hcond2, Bool.not_false, if_true, htr]
                            | true =>
                                rw [hcond2] at h
                                simp only [Bool.not_true, Bool.false_eq_true, if_false,
                                  bind, Except.bind] at h
                                cases hsub : collectFieldsImpl ctx fuel
                                    (match fragment.variableDefinitions with
                                     | some vds => some (getArgumentValuesFromSpread
                                         spreadArgs vds ctx.variableValues
                                         st.localVariableValues)
                                     | none => none)
                                    deferU fragment.selectionSet
                                    { st with
                                      localVariableValues :=
                                        match fragment.variableDefinitions with
                                        | some vds => some (getArgumentValuesFromSpread
                                            spreadArgs vds ctx.variableValues
                                            st.localVariableValues)
                                        | none => none,
                                      visitedFragmentNames :=
                                        st.visitedFragmentNames ++ [fragmentName] } with
                                | error e =>
                                    rw [hsub] at h
                                    simp at h
                                | ok st1 =>
                                    rw [hsub] at h
                                    obtain ⟨ks1, htr1, hkeys1⟩ :=
                                      ih ctx _ deferU fragment.selectionSet _ st1 hsub
                                    obtain ⟨ks2, htr2, hkeys2⟩ :=
                                      ih ctx lv deferU rest st1 st' h
                                    refine ⟨ks1 ++ ks2, ?_, ?_⟩
                                    · simp only [specKeyTrace, htr0, Option.isNone_none,
                                        Bool.true_and, hskip, Bool.false_eq_true,
                                        if_false, hlook, hcond2, Bool.not_true,
                                        if_true, htr1, htr2]
                                    · rw [hkeys2, hkeys1, List.foldl_append]
                  | some d =>
                      obtain ⟨d', htr0⟩ :=
                        (getDeferUsage_parent_shape ctx.operationType
                          (mergeEnvOpt ctx.variableValues lv) directives deferU
                          none).2.2 d heq
                      simp only [Option.isNone_some, Bool.false_and,
                        Bool.false_eq_true, if_false] at h
                      split at h
                      · next hlook =>
                          obtain ⟨ks, htr, hkeys⟩ := ih ctx lv deferU rest st st' h
                          refine ⟨ks, ?_, hkeys⟩
                          simp only [specKeyTrace, htr0, Option.isNone_some,
                            Bool.false_and, Bool.false_eq_true, if_false, hlook, htr]
                      · next fragment hlook =>
                          cases hcond2 : doesFragmentConditionMatch ctx.schema
                              (some fragment.typeCondition) ctx.runtimeType with
                          | false =>
                              rw [hcond2] at h
                              simp only [Bool.not_false, if_true] at h
                              obtain ⟨ks, htr, hkeys⟩ := ih ctx lv deferU rest st st' h
                              refine ⟨ks, ?_, hkeys⟩
                              simp only [specKeyTrace, htr0, Option.isNone_some,
                                Bool.false_and, Bool.false_eq_true, if_false, hlook,
                                hcond2, Bool.not_false, if_true, htr]
                          | true =>
                              rw [hcond2] at h
                              simp only [Bool.not_true, Bool.false_eq_true, if_false,
                                bind, Except.bind] at h
                              cases hsub : collectFieldsImpl ctx fuel
                                  (match fragment.variableDefinitions with
                                   | some vds => some (getArgumentValuesFromSpread
                                       spreadArgs vds ctx.variableValues
                                       st.localVariableValues)
                                   | none => none)
                                  (some d) fragment.selectionSet
                                  { st with
                                    localVariableValues :=
                                      match fragment.variableDefinitions with
                                      | some vds => some (getArgumentValuesFromSpread
                                          spreadArgs vds ctx.variableValues
                                          st.localVariableValues)
                                      | none => none,
                                    newDeferUsages := st.newDeferUsages ++ [d] } with
                              | error e =>
                                  rw [hsub] at h
                                  simp at h
                              | ok st1 =>
                                  rw [hsub] at h
                                  obtain ⟨ks1, htr1, hkeys1⟩ :=
                                    ih ctx _ (some d) fragment.selectionSet _ st1 hsub
                                  obtain ⟨ks2, htr2, hkeys2⟩ :=
                                    ih ctx lv deferU rest st1 st' h
                                  refine ⟨ks1 ++ ks2, ?_, ?_⟩
                                  · simp only [specKeyTrace, htr0, Option.isNone_some,
                                      Bool.false_and, Bool.false_eq_true, if_false,
                                      hlook, hcond2, Bool.not_true, if_true, htr1, htr2]
                                  · rw [hkeys2, hkeys1, List.foldl_append]

/-- The `collectSubfields` iteration refines the spec's group-loop
traversal: each field's sub-selection pass is mirrored, threading one
shared traversal state, and the accumulated keys evolve by
first-encounter insertion of the traced keys. -/
theorem subfields_loop_trace_rel (ctx : CollectCtx) (fuel : Nat) :
    ∀ (fds : List FieldDetails) (st st' : CollectSt),
      collectSubfieldsLoop ctx fuel fds st = .ok st' →
      ∃ ks, specKeyTraceGroupLoop ctx fuel fds
            ⟨st.visitedFragmentNames, st.localVariableValues⟩
          = .ok (⟨st'.visitedFragmentNames, st'.localVariableValues⟩, ks)
        ∧ groupedKeys st'.grouped = ks.foldl addKeyOnce (groupedKeys st.grouped) := by
  intro fds
  induction fds with
  | nil =>
      intro st st' h
      simp only [collectSubfieldsLoop, Except.ok.injEq] at h
      subst h
      exact ⟨[], rfl, rfl⟩
  | cons fd fds ihl =>
      intro st st' h
      simp only [collectSubfieldsLoop] at h
      split at h
      · next ss hss =>
          simp only [bind, Except.bind] at h
          cases hsub : collectFieldsImpl ctx fuel st.localVariableValues
              fd.deferUsage ss st with
          | error e =>
              rw [hsub] at h
              simp at h
          | ok st1 =>
              rw [hsub] at h
              obtain ⟨ks1, htr1, hkeys1⟩ :=
                collect_trace_rel fuel ctx st.localVariableValues fd.deferUsage ss
                  st st1 hsub
              obtain ⟨ks2, htr2, hkeys2⟩ := ihl st1 st' h
              refine ⟨ks1 ++ ks2, ?_, ?_⟩
              · simp only [specKeyTraceGroupLoop, hss, htr1, htr2]
              · rw [hkeys2, hkeys1, List.foldl_append]
      · next hss =>
          obtain ⟨ks, htr, hkeys⟩ := ihl st st' h
          refine ⟨ks, ?_, hkeys⟩
          simp only [specKeyTraceGroupLoop, hss, htr]

/-- C5.  For every selection set handed to `collectFields` or
`collectSubfields`, the key order of the returned grouped field set
equals the first-encounter order of the response keys emitted by the
left-to-right, depth-first spec traversal of the selection set with
fragment spreads and inline fragments expanded in place. -/
theorem c5_first_encounter_key_order (schema : GSchema) (fragments : Fragments)
    (variableValues : Env) (runtimeType returnType : NamedType)
    (operation : OperationDef) (fieldGroup : List FieldDetails) (fuel : Nat)
    (stO stS : CollectSt)
    (hO : collectFields schema fragments variableValues runtimeType operation fuel
      = .ok stO)
    (hS : collectSubfields schema fragments variableValues operation returnType
      fieldGroup fuel = .ok stS) :
    (∃ r, specKeyTraceOperation schema fragments variableValues runtimeType
        operation fuel = .ok r
      ∧ groupedKeys stO.grouped = firstEncounterOrder r.2)
    ∧ (∃ r, specKeyTraceSubfields schema fragments variableValues operation
        returnType fieldGroup fuel = .ok r
      ∧ groupedKeys stS.grouped = firstEncounterOrder r.2) := by
  constructor
  · simp only [collectFields] at hO
    obtain ⟨ks, htr, hkeys⟩ := collect_trace_rel fuel
      ⟨schema, fragments, variableValues, operation.operationType, runtimeType⟩
      none none operation.selectionSet initialCollectSt stO hO
    exact ⟨(⟨stO.visitedFragmentNames, stO.localVariableValues⟩, ks), htr, hkeys⟩
  · simp only [collectSubfields] at hS
    obtain ⟨ks, htr, hkeys⟩ := subfields_loop_trace_rel
      ⟨schema, fragments, variableValues, operation.operationType, returnType⟩
      fuel fieldGroup initialCollectSt stS hS
    exact ⟨(⟨stS.visitedFragmentNames, stS.localVariableValues⟩, ks), htr, hkeys⟩

/-- C5 witness: on the concrete C1 document and the concrete field group
`c5group`, both collections succeed and the key-order property holds. -/
theorem c5_first_encounter_key_order_witness :
    collectFields schemaT [("F", fragF)] [("x", .rbool false)] typeT opScopeLeak 10
      = .ok c5stO
    ∧ collectSubfields schemaT [("F", fragF)] [("x", .rbool false)] opScopeLeak
        typeT c5group 10 = .ok c5stS
    ∧ ((∃ r, specKeyTraceOperation schemaT [("F", fragF)] [("x", .rbool false)]
          typeT opScopeLeak 10 = .ok r
        ∧ groupedKeys c5stO.grouped = firstEncounterOrder r.2)
      ∧ (∃ r, specKeyTraceSubfields schemaT [("F", fragF)] [("x", .rbool false)]
          opScopeLeak typeT c5group 10 = .ok r
        ∧ groupedKeys c5stS.grouped = firstEncounterOrder r.2)) :=
  ⟨rfl, rfl,
    c5_first_encounter_key_order schemaT [("F", fragF)] [("x", .rbool false)]
      typeT typeT opScopeLeak c5group 10 c5stO c5stS rfl rfl⟩

/-- The validator's looping configuration on the cyclic fragment `H`:
at every fuel, each frame of the seven-call cycle
`findConflictsBetweenSubSelectionSets → betweenSubSpreadsLoop →
collectConflictsBetweenFieldsAndFragment → collectConflictsBetween →
betweenFieldsOuter → betweenFieldsInner → findFieldConflicts → (same
sub-selection pair)` exhausts the fuel, for every pair set and
conflict state — no pair is ever added along the cycle. -/
theorem c8_cycle (fuel : Nat) :
    (∀ pairs, findFieldConflicts c8ctx fuel false "f" c8e2outer c8e1 pairs
      = .error .outOfFuel)
    ∧ (∀ pairs, findFieldConflicts c8ctx fuel false "f" c8e2inner c8e1 pairs
      = .error .outOfFuel)
    ∧ (∀ pairs, findConflictsBetweenSubSelectionSets c8ctx fuel false none c8X
        none c8Y pairs = .error .outOfFuel)
    ∧ (∀ st, betweenSubSpreadsLoop c8ctx fuel false c8mapY c8Y [c8spread] st
      = .error .outOfFuel)
    ∧ (∀ st, collectConflictsBetweenFieldsAndFragment c8ctx fuel false c8mapY c8Y
        c8spread st = .error .outOfFuel)
    ∧ (∀ st, collectConflictsBetween c8ctx fuel false c8mapY c8mapH st
      = .error .outOfFuel)
    ∧ (∀ st, betweenFieldsOuter c8ctx fuel false "f" [c8e2inner] [c8e1] st
      = .error .outOfFuel)
    ∧ (∀ st, betweenFieldsInner c8ctx fuel false "f" c8e2inner [c8e1] st
      = .error .outOfFuel) := by
  induction fuel with
  | zero =>
      exact ⟨fun _ => rfl, fun _ => rfl, fun _ => rfl, fun _ => rfl, fun _ => rfl,
        fun _ => rfl, fun _ => rfl, fun _ => rfl⟩
  | succ m ih =>
      obtain ⟨hffO, hffI, hsss, hbssl, hccbff, hccb, hbfo, hbfi⟩ := ih
      refine ⟨?_, ?_, ?_, ?_, ?_, ?_, ?_, ?_⟩
      · intro pairs
        show (findConflictsBetweenSubSelectionSets c8ctx m false none c8X none c8Y
            pairs
          >>= fun r => Except.ok (subfieldConflicts r.1 "f" fH2 fH1, r.2))
          = Except.error VError.outOfFuel
        rw [hsss]
        rfl
      · intro pairs
        show (findConflictsBetweenSubSelectionSets c8ctx m false none c8X none c8Y
            pairs
          >>= fun r => Except.ok (subfieldConflicts r.1 "f" fH2 fH1, r.2))
          = Except.error VError.outOfFuel
        rw [hsss]
        rfl
      · intro pairs
        cases m with
        | zero => rfl
        | succ k =>
            show (betweenSubSpreadsLoop c8ctx (k + 1) false c8mapY c8Y [c8spread]
                ([], pairs)
              >>= fun st3 => subSpreadPairsOuter c8ctx (k + 1) false [c8spread] []
                st3)
              = Except.error VError.outOfFuel
            rw [hbssl]
            rfl
      · intro st
        show (collectConflictsBetweenFieldsAndFragment c8ctx m false c8mapY c8Y
            c8spread st
          >>= fun st2 => betweenSubSpreadsLoop c8ctx m false c8mapY c8Y [] st2)
          = Except.error VError.outOfFuel
        rw [hccbff]
        rfl
      · intro st
        show (collectConflictsBetween c8ctx m false c8mapY c8mapH st
          >>= fun st1 => fieldsAndFragmentRefLoop c8ctx m false c8mapY c8Y
            (keyForFragmentSpread c8spread) [] st1)
          = Except.error VError.outOfFuel
        rw [hccb]
        rfl
      · intro st
        show (betweenFieldsOuter c8ctx m false "f" [c8e2inner] [c8e1] st
          >>= fun st2 => collectConflictsBetween c8ctx m false [] c8mapH st2)
          = Except.error VError.outOfFuel
        rw [hbfo]
        rfl
      · intro st
        show (betweenFieldsInner c8ctx m false "f" c8e2inner [c8e1] st
          >>= fun st2 => betweenFieldsOuter c8ctx m false "f" [] [c8e1] st2)
          = Except.error VError.outOfFuel
        rw [hbfi]
        rfl
      · intro st
        show (findFieldConflicts c8ctx m false "f" c8e2inner c8e1 st.2
          >>= fun r =>
            match r.1 with
            | some conflict => betweenFieldsInner c8ctx m false "f" c8e2inner []
                (st.1 ++ [conflict], r.2)
            | none => betweenFieldsInner c8ctx m false "f" c8e2inner [] (st.1, r.2))
          = Except.error VError.outOfFuel
        rw [hffI]
        rfl

/-- The looping configuration reached from the document's own duplicate
response key: the triangular within-set comparison of `fH2` and `fH1`
exhausts any fuel. -/
theorem c8_withinPairsInner (fuel : Nat) (st : VSt) :
    withinPairsInner c8ctx fuel "f" c8e2outer [c8e1] st = .error .outOfFuel := by
  cases fuel with
  | zero => rfl
  | succ m =>
      show (findFieldConflicts c8ctx m false "f" c8e2outer c8e1 st.2
        >>= fun r =>
          match r.1 with
          | some conflict => withinPairsInner c8ctx m "f" c8e2outer []
              (st.1 ++ [conflict], r.2)
          | none => withinPairsInner c8ctx m "f" c8e2outer [] (st.1, r.2))
        = Except.error VError.outOfFuel
      rw [(c8_cycle m).1]
      rfl

/-- One frame out: the outer triangular loop over the two `f`
occurrences exhausts any fuel. -/
theorem c8_withinPairsOuter (fuel : Nat) (st : VSt) :
    withinPairsOuter c8ctx fuel "f" [c8e2outer, c8e1] st = .error .outOfFuel := by
  cases fuel with
  | zero => rfl
  | succ m =>
      show (withinPairsInner c8ctx m "f" c8e2outer [c8e1] st
        >>= fun st2 => withinPairsOuter c8ctx m "f" [c8e1] st2)
        = Except.error VError.outOfFuel
      rw [c8_withinPairsInner m st]
      rfl

/-- `collectConflictsWithin` on the document's field map exhausts any
fuel. -/
theorem c8_collectConflictsWithin (fuel : Nat) (st : VSt) :
    collectConflictsWithin c8ctx fuel [("f", [c8e2outer, c8e1])] st
      = .error .outOfFuel := by
  cases fuel with
  | zero => rfl
  | succ m =>
      show (withinPairsOuter c8ctx m "f" [c8e2outer, c8e1] st
        >>= fun st2 => collectConflictsWithin c8ctx m [] st2)
        = Except.error VError.outOfFuel
      rw [c8_withinPairsOuter m st]
      rfl

/-- A `@defer`-free directive list yields no defer usage and never
aborts, on any operation kind and environment. -/
theorem getDeferUsage_noDefer (op : OpType) (env : Env) (dirs : List Directive)
    (parent : Option DeferUsage) (h : dirsNoDefer dirs = true) :
    getDeferUsage op env dirs parent = .ok none := by
  have hf : dirs.find? (fun d => d.name == "defer") = none := by
    rw [List.find?_eq_none]
    simp only [dirsNoDefer, Bool.not_eq_true', List.any_eq_false] at h
    exact h
  simp [getDeferUsage, getDirectiveValues, hf]

/-- Appending one name: membership test of the extended visited list. -/
theorem contains_append_one (l : List String) (y x : String) :
    (l ++ [y]).contains x = (l.contains x || x == y) := by
  induction l with
  | nil =>
      simp only [List.nil_append, List.contains_cons, List.contains_nil, Bool.or_false]
      rfl
  | cons a l ihl =>
      simp only [List.cons_append, List.contains_cons, ihl, Bool.or_assoc]

/-- Membership survives appending on the right. -/
theorem contains_append_left (l l2 : List String) (x : String)
    (h : l.contains x = true) : (l ++ l2).contains x = true := by
  induction l with
  | nil => simp [List.contains_nil] at h
  | cons a l ihl =>
      simp only [List.contains_cons, Bool.or_eq_true] at h
      rcases h with h | h
      · simp only [List.cons_append, List.contains_cons, h, Bool.true_or]
      · simp only [List.cons_append, List.contains_cons, ihl h, Bool.or_true]

/-- A fragment found in a `@defer`-free table is itself `@defer`-free. -/
theorem lookupFragment_noDefer (fragments : Fragments) (name : String)
    (frag : FragmentDef) (hl : lookupFragment fragments name = some frag)
    (hfr : fragmentsNoDefer fragments = true) :
    selsNoDefer frag.selectionSet = true := by
  simp only [lookupFragment, Option.map_eq_some'] at hl
  obtain ⟨p, hp, hpf⟩ := hl
  have hmem := List.mem_of_find?_eq_some hp
  simp only [fragmentsNoDefer, List.all_eq_true] at hfr
  exact hpf ▸ hfr p hmem

/-- Growing the visited set never increases the unvisited weight. -/
theorem unvisitedWeight_mono (fragments : Fragments) (v v2 : List String)
    (h : ∀ x, v.contains x = true → v2.contains x = true) :
    unvisitedWeight fragments v2 ≤ unvisitedWeight fragments v := by
  refine List.Sublist.sum_le_sum
    ((List.monotone_filter_right fragments ?_).map _) (fun a _ => Nat.zero_le _)
  intro a ha
  cases hv : v.contains a.1 with
  | true =>
      rw [h a.1 hv] at ha
      simp at ha
  | false => simp

/-- Visiting a fragment that is present in the table and not yet
visited removes at least its own weight from the unvisited total. -/
theorem unvisitedWeight_remove (fragments : Fragments) (name : String)
    (frag : FragmentDef) (v : List String)
    (hl : lookupFragment fragments name = some frag)
    (hv : v.contains name = false) :
    unvisitedWeight fragments (v ++ [name]) + selsSize frag.selectionSet + 1
      ≤ unvisitedWeight fragments v := by
  induction fragments with
  | nil => simp [lookupFragment] at hl
  | cons p fr ihf =>
      by_cases hpk : (p.1 == name) = true
      · have hfrag : p.2 = frag := by
          simp only [lookupFragment, List.find?_cons, hpk, if_true,
            Option.map_some] at hl
          exact Option.some.inj hl
        have hpk2 : p.1 = name := by simpa using hpk
        have hkeep : (!v.contains p.1) = true := by rw [hpk2, hv]; rfl
        have hdrop : (!(v ++ [name]).contains p.1) = false := by
          rw [hpk2, contains_append_one, Bool.not_eq_false', Bool.or_eq_true]
          right
          simp
        simp only [unvisitedWeight, List.filter_cons, hkeep, hdrop,
          Bool.false_eq_true, if_false, if_true, List.map_cons, List.sum_cons]
        have hmono : ((fr.filter (fun q => !(v ++ [name]).contains q.1)).map
              (fun q => selsSize q.2.selectionSet + 1)).sum
            ≤ ((fr.filter (fun q => !v.contains q.1)).map
              (fun q => selsSize q.2.selectionSet + 1)).sum := by
          refine List.Sublist.sum_le_sum
            ((List.monotone_filter_right fr ?_).map _) (fun a _ => Nat.zero_le _)
          intro a ha
          cases hva : v.contains a.1 with
          | true =>
              rw [contains_append_left v [name] a.1 hva] at ha
              simp at ha
          | false => simp
        rw [hfrag]
        omega
      · have hpkf : (p.1 == name) = false := by
          cases hb : (p.1 == name) with
          | true => exact absurd hb hpk
          | false => rfl
        have hl2 : lookupFragment fr name = some frag := by
          simp only [lookupFragment, List.find?_cons, hpkf, Bool.false_eq_true,
            if_false] at hl
          exact hl
        have hsame : (v ++ [name]).contains p.1 = v.contains p.1 := by
          rw [contains_append_one, hpkf, Bool.or_false]
        have ih2 := ihf hl2
        simp only [unvisitedWeight, List.filter_cons, hsame] at ih2 ⊢
        cases hc : (!v.contains p.1) with
        | true =>
            simp only [hc, if_true, List.map_cons, List.sum_cons]
            omega
        | false =>
            simp only [hc, Bool.false_eq_true, if_false]
            omega

/-- A successful collection pass only ever grows the visited-fragment
set. -/
theorem collect_visited_mono (fuel : Nat) :
    ∀ (ctx : CollectCtx) (lv : Option Env) (deferU : Option DeferUsage)
      (sels : List Selection) (st st' : CollectSt),
      collectFieldsImpl ctx fuel lv deferU sels st = .ok st' →
      ∀ x, st.visitedFragmentNames.contains x = true →
        st'.visitedFragmentNames.contains x = true := by
  induction fuel with
  | zero =>
      intro ctx lv deferU sels st st' h
      simp [collectFieldsImpl] at h
  | succ fuel ih =>
      intro ctx lv deferU sels st st' h x hx
      cases sels with
      | nil =>
          simp only [collectFieldsImpl, Except.ok.injEq] at h
          subst h
          exact hx
      | cons sel rest =>
          cases sel with
          | field node =>
              simp only [collectFieldsImpl] at h
              by_cases hinc : shouldIncludeNode (mergeEnvOpt ctx.variableValues lv)
                  node.directives = true
              · rw [if_pos hinc] at h
                exact ih ctx lv deferU rest _ st' h x hx
              · rw [if_neg hinc] at h
                exact ih ctx lv deferU rest st st' h x hx
          | inlineFragment tc dirs subs =>
              simp only [collectFieldsImpl] at h
              by_cases hcond : (shouldIncludeNode (mergeEnvOpt ctx.variableValues lv)
                  dirs && doesFragmentConditionMatch ctx.schema tc ctx.runtimeType)
                  = true
              · rw [if_pos hcond] at h
                split at h
                · next e heq => simp at h
                · next heq =>
                    simp only [bind, Except.bind] at h
                    cases hsub : collectFieldsImpl ctx fuel st.localVariableValues
                        deferU subs st with
                    | error e => rw [hsub] at h; simp at h
                    | ok st1 =>
                        rw [hsub] at h
                        exact ih ctx lv deferU rest st1 st' h x
                          (ih ctx st.localVariableValues deferU subs st st1 hsub x hx)
                · next d heq =>
                    simp only [bind, Except.bind] at h
                    cases hsub : collectFieldsImpl ctx fuel st.localVariableValues
                        (some d) subs
                        { st with newDeferUsages := st.newDeferUsages ++ [d] } with
                    | error e => rw [hsub] at h; simp at h
                    | ok st1 =>
                        rw [hsub] at h
                        exact ih ctx lv deferU rest st1 st' h x
                          (ih ctx st.localVariableValues (some d) subs _ st1 hsub x hx)
              · rw [if_neg hcond] at h
                exact ih ctx lv deferU rest st st' h x hx
          | fragmentSpread fragmentName spreadArgs directives =>
              simp only [collectFieldsImpl] at h
              split at h
              · next e heq => simp at h
              · next nd heq =>
                  by_cases hskip : (nd.isNone
                      && (st.visitedFragmentNames.contains fragmentName
                        || !shouldIncludeNode (mergeEnvOpt ctx.variableValues lv)
                          directives)) = true
                  · rw [if_pos hskip] at h
                    exact ih ctx lv deferU rest st st' h x hx
                  · rw [if_neg hskip] at h
                    split at h
                    · next hlook =>
                        exact ih ctx lv deferU rest st st' h x hx
                    · next fragment hlook =>
                        by_cases hmat : (!doesFragmentConditionMatch ctx.schema
                            (some fragment.typeCondition) ctx.runtimeType) = true
                        · rw [if_pos hmat] at h
                          exact ih ctx lv deferU rest st st' h x hx
                        · rw [if_neg hmat] at h
                          cases nd with
                          | none =>
                              simp only [bind, Except.bind] at h
                              cases hsub : collectFieldsImpl ctx fuel
                                  (match fragment.variableDefinitions with
                                   | some vds => some (getArgumentValuesFromSpread
                                       spreadArgs vds ctx.variableValues
                                       st.localVariableValues)
                                   | none => none)
                                  deferU fragment.selectionSet
                                  { st with
                                    localVariableValues :=
                                      match fragment.variableDefinitions with
                                      | some vds => some (getArgumentValuesFromSpread
                                          spreadArgs vds ctx.variableValues
                                          st.localVariableValues)
                                      | none => none,
                                    visitedFragmentNames :=
                                      st.visitedFragmentNames ++ [fragmentName] } with
                              | error e => rw [hsub] at h; simp at h
                              | ok st1 =>
                                  rw [hsub] at h
                                  refine ih ctx lv deferU rest st1 st' h x ?_
                                  refine ih ctx _ deferU fragment.selectionSet _ st1
                                    hsub x ?_
                                  exact contains_append_left
                                    st.visitedFragmentNames [fragmentName] x hx
                          | some d =>
                              simp only [bind, Except.bind] at h
                              cases hsub : collectFieldsImpl ctx fuel
                                  (match fragment.variableDefinitions with
                                   | some vds => some (getArgumentValuesFromSpread
                                       spreadArgs vds ctx.variableValues
                                       st.localVariableValues)
                                   | none => none)
                                  (some d) fragment.selectionSet
                                  { st with
                                    localVariableValues :=
                                      match fragment.variableDefinitions with
                                      | some vds => some (getArgumentValuesFromSpread
                                          spreadArgs vds ctx.variableValues
                                          st.localVariableValues)
                                      | none => none,
                                    newDeferUsages := st.newDeferUsages ++ [d] } with
                              | error e => rw [hsub] at h; simp at h
                              | ok st1 =>
                                  rw [hsub] at h
                                  refine ih ctx lv deferU rest st1 st' h x ?_
                                  exact ih ctx _ (some d) fragment.selectionSet _ st1
                                    hsub x hx

/-- Under a `@defer`-free document and fragment table, any fuel
exceeding the selection size plus the unvisited fragment weight
completes the collection pass — cyclic fragment references included,
because a visited spread is skipped. -/
theorem collect_terminates (fuel : Nat) :
    ∀ (ctx : CollectCtx) (lv : Option Env) (deferU : Option DeferUsage)
      (sels : List Selection) (st : CollectSt),
      selsNoDefer sels = true →
      fragmentsNoDefer ctx.fragments = true →
      selsSize sels
          + unvisitedWeight ctx.fragments st.visitedFragmentNames < fuel →
      ∃ st', collectFieldsImpl ctx fuel lv deferU sels st = .ok st' := by
  induction fuel with
  | zero =>
      intro ctx lv deferU sels st _ _ hm
      omega
  | succ fuel ih =>
      intro ctx lv deferU sels st hnd hfr hm
      cases sels with
      | nil => exact ⟨st, rfl⟩
      | cons sel rest =>
          simp only [selsNoDefer, Bool.and_eq_true] at hnd
          obtain ⟨hnd1, hndr⟩ := hnd
          simp only [selsSize] at hm
          cases sel with
          | field node =>
              simp only [selSize] at hm
              simp only [collectFieldsImpl]
              by_cases hinc : shouldIncludeNode (mergeEnvOpt ctx.variableValues lv)
                  node.directives = true
              · rw [if_pos hinc]
                exact ih ctx lv deferU rest
                  { st with grouped := (AccumulatorMap.add st.grouped
                      (getFieldEntryKey node) ⟨node, deferU, lv⟩) }
                  hndr hfr
                  (by
                    show selsSize rest + unvisitedWeight ctx.fragments
                      st.visitedFragmentNames < fuel
                    omega)
              · rw [if_neg hinc]
                exact ih ctx lv deferU rest st hndr hfr (by omega)
          | inlineFragment tc dirs subs =>
              simp only [selNoDefer, Bool.and_eq_true] at hnd1
              obtain ⟨hd, hs⟩ := hnd1
              simp only [selSize] at hm
              simp only [collectFieldsImpl]
              by_cases hcond : (shouldIncludeNode (mergeEnvOpt ctx.variableValues lv)
                  dirs && doesFragmentConditionMatch ctx.schema tc ctx.runtimeType)
                  = true
              · rw [if_pos hcond]
                have hdu : getDeferUsage ctx.operationType ctx.variableValues dirs
                    deferU = .ok none := getDeferUsage_noDefer _ _ _ _ hd
                obtain ⟨st1, h1⟩ := ih ctx st.localVariableValues deferU subs st hs
                  hfr (by omega)
                have hv1 := collect_visited_mono fuel ctx st.localVariableValues
                  deferU subs st st1 h1
                have hW1 : unvisitedWeight ctx.fragments st1.visitedFragmentNames
                    ≤ unvisitedWeight ctx.fragments st.visitedFragmentNames :=
                  unvisitedWeight_mono _ _ _ hv1
                obtain ⟨st2, h2⟩ := ih ctx lv deferU rest st1 hndr hfr (by omega)
                exact ⟨st2, by simp only [hdu, bind, Except.bind, h1, h2]⟩
              · rw [if_neg hcond]
                exact ih ctx lv deferU rest st hndr hfr (by omega)
          | fragmentSpread fragmentName spreadArgs directives =>
              simp only [selNoDefer] at hnd1
              simp only [selSize] at hm
              simp only [collectFieldsImpl]
              have hdu : getDeferUsage ctx.operationType
                  (mergeEnvOpt ctx.variableValues lv) directives deferU = .ok none :=
                getDeferUsage_noDefer _ _ _ _ hnd1
              simp only [hdu, Option.isNone_none, Bool.true_and]
              by_cases hskip : (st.visitedFragmentNames.contains fragmentName
                  || !shouldIncludeNode (mergeEnvOpt ctx.variableValues lv)
                    directives) = true
              · rw [if_pos hskip]
                exact ih ctx lv deferU rest st hndr hfr (by omega)
              · rw [if_neg hskip]
                simp only [Bool.or_eq_true, not_or, Bool.not_eq_true] at hskip
                obtain ⟨hvis, hincl⟩ := hskip
                cases hlook : lookupFragment ctx.fragments fragmentName with
                | none =>
                    simp only [hlook]
                    exact ih ctx lv deferU rest st hndr hfr (by omega)
                | some fragment =>
                    simp only [hlook]
                    by_cases hmat : (!doesFragmentConditionMatch ctx.schema
                        (some fragment.typeCondition) ctx.runtimeType) = true
                    · rw [if_pos hmat]
                      exact ih ctx lv deferU rest st hndr hfr (by omega)
                    · rw [if_neg hmat]
                      have hWrem := unvisitedWeight_remove ctx.fragments fragmentName
                        fragment st.visitedFragmentNames hlook hvis
                      have hfnd := lookupFragment_noDefer ctx.fragments fragmentName
                        fragment hlook hfr
                      obtain ⟨st1, h1⟩ := ih ctx
                        (match fragment.variableDefinitions with
                         | some vds => some (getArgumentValuesFromSpread spreadArgs
                             vds ctx.variableValues st.localVariableValues)
                         | none => none)
                        deferU fragment.selectionSet
                        { st with
                          localVariableValues :=
                            match fragment.variableDefinitions with
                            | some vds => some (getArgumentValuesFromSpread spreadArgs
                                vds ctx.variableValues st.localVariableValues)
                            | none => none,
                          visitedFragmentNames :=
                            st.visitedFragmentNames ++ [fragmentName] }
                        hfnd hfr
                        (by
                          show selsSize fragment.selectionSet
                            + unvisitedWeight ctx.fragments
                              (st.visitedFragmentNames ++ [fragmentName]) < fuel
                          omega)
                      have hv1 := collect_visited_mono fuel ctx _ deferU
                        fragment.selectionSet _ st1 h1
                      have hW1 : unvisitedWeight ctx.fragments
                          st1.visitedFragmentNames
                          ≤ unvisitedWeight ctx.fragments
                            (st.visitedFragmentNames ++ [fragmentName]) := by
                        apply unvisitedWeight_mono
                        intro x hx
                        exact hv1 x hx
                      obtain ⟨st2, h2⟩ := ih ctx lv deferU rest st1 hndr hfr
                        (by omega)
                      exact ⟨st2, by simp only [bind, Except.bind, h1, h2]⟩

/-- A non-deferred spread of an already-visited fragment name is a
no-op: collection proceeds with the remaining selections unchanged. -/
theorem visitedSpread_noop (ctx : CollectCtx) (fuel : Nat) (lv : Option Env)
    (deferU : Option DeferUsage) (name : String) (args : List Argument)
    (dirs : List Directive) (rest : List Selection) (st : CollectSt)
    (hd : dirsNoDefer dirs = true)
    (hv : st.visitedFragmentNames.contains name = true) :
    collectFieldsImpl ctx (fuel + 1) lv deferU
      (.fragmentSpread name args dirs :: rest) st
      = collectFieldsImpl ctx fuel lv deferU rest st := by
  have hdu : getDeferUsage ctx.operationType (mergeEnvOpt ctx.variableValues lv)
      dirs deferU = .ok none := getDeferUsage_noDefer _ _ _ _ hd
  simp only [collectFieldsImpl, hdu, Option.isNone_none, Bool.true_and, hv,
    Bool.true_or, if_true]

/-- An already-compared fragment pair is skipped: the comparison
returns its state unchanged. -/
theorem comparedPair_noop (ctx : VCtx) (fuel : Nat) (amx : Bool)
    (s1 s2 : SpreadInfo) (st : VSt)
    (hhas : st.2.has (keyForFragmentSpread s1) (keyForFragmentSpread s2) amx
      = true) :
    collectConflictsBetweenFragments ctx (fuel + 1) amx s1 s2 st = .ok st := by
  simp only [collectConflictsBetweenFragments]
  by_cases hk : (keyForFragmentSpread s1 == keyForFragmentSpread s2) = true
  · rw [if_pos hk]
  · rw [if_neg hk, if_pos hhas]

/-- The validator entry on the cyclic document exhausts every fuel. -/
theorem c8_driver (fuel : Nat) :
    findConflictsWithinSelectionSet c8ctx fuel (some typeT) c8doc PairSet.empty
      = .error .outOfFuel := by
  cases fuel with
  | zero => rfl
  | succ m =>
      show (collectConflictsWithin c8ctx m [("f", [c8e2outer, c8e1])]
          ([], PairSet.empty)
        >>= fun st1 => withinSpreadsOuter c8ctx m [("f", [c8e2outer, c8e1])] c8doc
          [] st1)
        = Except.error VError.outOfFuel
      rw [c8_collectConflictsWithin m ([], PairSet.empty)]
      rfl

/-- C8.  The claim's collection half holds: under a `@defer`-free
document and fragment table — cyclic tables included — collection
terminates for any sufficient fuel, and a non-deferred spread of an
already-visited name contributes nothing further; likewise the
validator skips an already-compared fragment pair.  But the claim's
validator-termination half is false: on the self-referential fragment
`H` and a document with two overlapping `f` fields, the merge
validator exhausts every fuel bound — the cycle runs through
`collectConflictsBetweenFieldsAndFragment`'s direct field-map
comparison, a path that consults no pair memo. -/
theorem c8_cyclic_termination :
    (∀ fuel, findConflictsWithinSelectionSet c8ctx fuel (some typeT) c8doc
        PairSet.empty = .error .outOfFuel)
    ∧ (∀ (schema : GSchema) (fragments : Fragments) (variableValues : Env)
        (runtimeType : NamedType) (operation : OperationDef),
        selsNoDefer operation.selectionSet = true →
        fragmentsNoDefer fragments = true →
        ∃ fuel st, collectFields schema fragments variableValues runtimeType
          operation fuel = .ok st)
    ∧ (∀ (ctx : CollectCtx) (fuel : Nat) (lv : Option Env)
        (deferU : Option DeferUsage) (name : String) (args : List Argument)
        (dirs : List Directive) (rest : List Selection) (st : CollectSt),
        dirsNoDefer dirs = true →
        st.visitedFragmentNames.contains name = true →
        collectFieldsImpl ctx (fuel + 1) lv deferU
          (.fragmentSpread name args dirs :: rest) st
          = collectFieldsImpl ctx fuel lv deferU rest st)
    ∧ (∀ (ctx : VCtx) (fuel : Nat) (amx : Bool) (s1 s2 : SpreadInfo) (st : VSt),
        st.2.has (keyForFragmentSpread s1) (keyForFragmentSpread s2) amx = true →
        collectConflictsBetweenFragments ctx (fuel + 1) amx s1 s2 st = .ok st) := by
  refine ⟨c8_driver, ?_, visitedSpread_noop, comparedPair_noop⟩
  intro schema fragments variableValues runtimeType operation hop hfr
  obtain ⟨st', h⟩ := collect_terminates
    (selsSize operation.selectionSet + unvisitedWeight fragments [] + 1)
    ⟨schema, fragments, variableValues, operation.operationType, runtimeType⟩
    none none operation.selectionSet initialCollectSt hop hfr
    (by
      show selsSize operation.selectionSet + unvisitedWeight fragments []
        < selsSize operation.selectionSet + unvisitedWeight fragments [] + 1
      omega)
  exact ⟨selsSize operation.selectionSet + unvisitedWeight fragments [] + 1, st', h⟩

/-- C8 witness: concrete instances discharging each hypothesis of the
conditional conjuncts of the termination theorem. -/
theorem c8_cyclic_termination_witness :
    selsNoDefer opScopeLeak.selectionSet = true
    ∧ fragmentsNoDefer [("F", fragF)] = true
    ∧ dirsNoDefer [] = true
    ∧ (["G"] : List String).contains "G" = true
    ∧ (PairSet.empty.add "H" "G" false).has "H" "G" false = true
    ∧ (∃ fuel st, collectFields schemaT [("F", fragF)] [("x", .rbool false)] typeT
        opScopeLeak fuel = .ok st)
    ∧ collectFieldsImpl ⟨schemaT, [("F", fragF)], [], .query, typeT⟩ (0 + 1) none
        none [.fragmentSpread "G" [] []] ⟨[], [], ["G"], none⟩
        = collectFieldsImpl ⟨schemaT, [("F", fragF)], [], .query, typeT⟩ 0 none none
          [] ⟨[], [], ["G"], none⟩
    ∧ collectConflictsBetweenFragments c8ctx (0 + 1) false c8spread ⟨"G", [], []⟩
        ([], PairSet.empty.add "H" "G" false)
        = .ok ([], PairSet.empty.add "H" "G" false) :=
  ⟨rfl, rfl, rfl, rfl,
    by simp [PairSet.has, PairSet.add, PairSet.get, pairKeys, assocGet, assocSet,
      PairSet.empty],
    c8_cyclic_termination.2.1 schemaT [("F", fragF)] [("x", .rbool false)] typeT
      opScopeLeak rfl rfl,
    c8_cyclic_termination.2.2.1 ⟨schemaT, [("F", fragF)], [], .query, typeT⟩ 0 none
      none "G" [] [] [] ⟨[], [], ["G"], none⟩ rfl rfl,
    c8_cyclic_termination.2.2.2 c8ctx 0 false c8spread ⟨"G", [], []⟩
      ([], PairSet.empty.add "H" "G" false)
      (by
        show (PairSet.empty.add "H" "G" false).has "H" "G" false = true
        simp [PairSet.has, PairSet.add, PairSet.get, pairKeys, assocGet, assocSet,
          PairSet.empty])⟩

end GraphQL
